import Mathlib

/-!
Verification development for the highlighter orchestration core
(src/app/services/highlighter/index.ts).

The TypeScript service is shallowly embedded as pure functions over an
explicit state.  JavaScript numbers that the code only adds, compares and
subtracts (order positions, clip times, trims) are modelled as Int; no
float-specific behaviour is exercised by the modelled operations.
JavaScript objects used as keyed dictionaries (state.clips, streamInfo,
the stream dictionary) preserve insertion order for string keys, so they
are modelled as insertion-ordered association lists with unique keys.
The filesystem, the media probe and the rendering engine are external
collaborators; they are modelled as oracle fields of the World structure
(a set of existing files, plus probe result functions).
-/

/-- Source of a clip: models the TClip source field. -/
inductive ClipSource where
  | Manual
  | ReplayBuffer
  | AiClip
deriving DecidableEq, Repr

/-- The addClips source parameter, typed Manual | ReplayBuffer in the code. -/
inductive AddSource where
  | Manual
  | ReplayBuffer
deriving DecidableEq, Repr

/-- Models TStreamInfo: the per-stream association record of a clip. -/
structure TStreamInfo where
  orderPosition : Int
  initialStartTime : Option Int := none
  initialEndTime : Option Int := none
deriving DecidableEq, Repr

/-- Models the aiInfo payload carried by AI clips (inputs, score, round
metadata).  The modelled operations carry it but never inspect it. -/
structure AiInfo where
  inputs : List String := []
  score : Int := 0
  round : Option Int := none
deriving DecidableEq, Repr

/-- Models TClip.  streamInfo is the insertion-ordered map from stream id
to TStreamInfo; none models the JavaScript undefined. -/
structure Clip where
  path : String
  loaded : Bool
  enabled : Bool
  startTrim : Int
  endTrim : Int
  deleted : Bool
  source : ClipSource
  globalOrderPosition : Int
  streamInfo : Option (List (String × TStreamInfo)) := none
  scrubSprite : Option String := none
  duration : Option Int := none
  aiInfo : Option AiInfo := none
deriving DecidableEq, Repr

/-- Models EExportStep from rendering.models (only AudioMix appears in the
modelled code paths; FrameRender stands for the remaining steps). -/
inductive EExportStep where
  | AudioMix
  | FrameRender
deriving DecidableEq, Repr

/-- Models IExportInfo.  error none models null. -/
structure IExportInfo where
  exporting : Bool
  currentFrame : Int
  totalFrames : Int
  step : EExportStep
  cancelRequested : Bool
  file : String
  previewFile : String
  exported : Bool
  error : Option String
  fps : Int
  resolution : Int
  preset : String
deriving DecidableEq, Repr

/-- Modelled from the spec: the upload platform keys (one record per
platform).  Only YOUTUBE appears literally in index.ts; the other
constructors stand for the storage platforms of EUploadPlatform, whose
definition file (highlighter.models) is not part of the sources. -/
inductive EUploadPlatform where
  | youtube
  | crossclip
  | videoeditor
deriving DecidableEq, Repr

/-- Models IUploadInfo. -/
structure IUploadInfo where
  platform : EUploadPlatform
  uploading : Bool
  uploadedBytes : Int
  totalBytes : Int
  cancelRequested : Bool
  videoId : Option String
  error : Bool
deriving DecidableEq, Repr

/-- Models ITransitionInfo; the field named type in the source is kept. -/
structure ITransitionInfo where
  type : String
  duration : Int
deriving DecidableEq, Repr

/-- Models IAudioInfo. -/
structure IAudioInfo where
  musicEnabled : Bool
  musicPath : String
  musicVolume : Int
deriving DecidableEq, Repr

/-- Models one intro or outro entry of IVideoInfo. -/
structure VideoEntry where
  path : String
  duration : Option Int
deriving DecidableEq, Repr

/-- Models IVideoInfo. -/
structure IVideoInfo where
  intro : VideoEntry
  outro : VideoEntry
deriving DecidableEq, Repr

/-- Models EAiDetectionState from ai-highlighter.models; the four
constructors appear literally in index.ts. -/
inductive EAiDetectionState where
  | IN_PROGRESS
  | FINISHED
  | CANCELED_BY_USER
  | ERROR
deriving DecidableEq, Repr

/-- Models IHighlightedStream.  hasAbortController models whether the
abortController field is set (the controller itself is external). -/
structure IHighlightedStream where
  id : String
  title : String
  game : String
  date : String
  stateType : EAiDetectionState
  progress : Int
  path : String
  hasAbortController : Bool
deriving DecidableEq, Repr

/-- Models the persisted IHighlighterState.  Fields of the source state
that no modelled operation reads or writes (dismissedTutorial,
useAiHighlighter, updaterProgress, isUpdaterRunning, highlighterVersion,
tempRecordingInfo, the legacy highlightedStreams array) are omitted; the
stream dictionary is kept as a list of streams keyed by their id field. -/
structure IHighlighterState where
  clips : List Clip
  transition : ITransitionInfo
  video : IVideoInfo
  audio : IAudioInfo
  exportInfo : IExportInfo
  uploads : List IUploadInfo
  error : String
  highlightedStreamsDictionary : List IHighlightedStream
deriving DecidableEq, Repr

/-- The service state together with its external collaborators: the
non-persisted renderingClips dictionary (keyed by path), the filesystem
(the set of existing file paths), and oracles for the supported-extension
check, the media probe, and the RenderingClip reset outcome. -/
structure World where
  state : IHighlighterState
  renderingClips : List String
  files : List String
  supported : String → Bool
  probeScrub : String → Option String
  probeDuration : String → Option Int
  probeDeleted : String → Bool
  resetDeleted : String → Bool
  cancelFunctionSet : Bool

/-- Models fileExists from file-utils against the modelled filesystem. -/
def fileExists (files : List String) (p : String) : Bool :=
  files.contains p

-- =====================================================================
-- Association list helpers for JavaScript object dictionaries
-- =====================================================================

/-- Lookup in an insertion-ordered association list (obj key access). -/
def alookup : List (String × α) → String → Option α
  | [], _ => none
  | kv :: rest, k => if kv.1 = k then some kv.2 else alookup rest k

/-- Models the object spread that sets key k to v: an existing key keeps
its position, a new key is appended. -/
def aset (m : List (String × α)) (k : String) (v : α) : List (String × α) :=
  if (alookup m k).isSome then
    m.map (fun kv => if kv.1 = k then (k, v) else kv)
  else m ++ [(k, v)]

/-- Models delete obj k. -/
def aerase (m : List (String × α)) (k : String) : List (String × α) :=
  m.filter (fun kv => kv.1 ≠ k)

/-- Truthiness test for streamInfo streamId used as a filter: the entry
object is truthy exactly when it is present. -/
def hasStream (c : Clip) (sid : String) : Bool :=
  match c.streamInfo with
  | none => false
  | some m => (alookup m sid).isSome

-- =====================================================================
-- Mutations (the decorator-tagged setters of the service)
-- =====================================================================

/-- Partial TClip used by UPDATE_CLIP call sites; a present field
overwrites the stored one (object spread).  The nested Option on
scrubSprite and duration distinguishes leaving the field alone from
explicitly storing undefined. -/
structure ClipPatch where
  path : String
  loaded : Option Bool := none
  enabled : Option Bool := none
  startTrim : Option Int := none
  endTrim : Option Int := none
  deleted : Option Bool := none
  globalOrderPosition : Option Int := none
  streamInfo : Option (Option (List (String × TStreamInfo))) := none
  scrubSprite : Option (Option String) := none
  duration : Option (Option Int) := none
deriving DecidableEq, Repr

/-- Spread of a ClipPatch over a stored clip. -/
def applyClipPatch (c : Clip) (p : ClipPatch) : Clip :=
  { c with
    loaded := p.loaded.getD c.loaded
    enabled := p.enabled.getD c.enabled
    startTrim := p.startTrim.getD c.startTrim
    endTrim := p.endTrim.getD c.endTrim
    deleted := p.deleted.getD c.deleted
    globalOrderPosition := p.globalOrderPosition.getD c.globalOrderPosition
    streamInfo := p.streamInfo.getD c.streamInfo
    scrubSprite := p.scrubSprite.getD c.scrubSprite
    duration := p.duration.getD c.duration }

/-- Models the ADD_CLIP mutation: Vue.set keyed by path (replace in place
when the key exists, append otherwise) and reset of exported. -/
def ADD_CLIP (s : IHighlighterState) (clip : Clip) : IHighlighterState :=
  let clips :=
    if s.clips.any (fun c => c.path = clip.path) then
      s.clips.map (fun c => if c.path = clip.path then clip else c)
    else s.clips ++ [clip]
  { s with clips := clips, exportInfo := { s.exportInfo with exported := false } }

/-- Models the UPDATE_CLIP mutation: spread of the partial clip over the
stored record, and reset of exported.  Every call site in the source
patches a path that is present in the map, so the patch is applied in
place; exported is reset unconditionally as in the mutation body. -/
def UPDATE_CLIP (s : IHighlighterState) (p : ClipPatch) : IHighlighterState :=
  { s with
    clips := s.clips.map (fun c => if c.path = p.path then applyClipPatch c p else c)
    exportInfo := { s.exportInfo with exported := false } }

/-- Models the REMOVE_CLIP mutation: Vue.delete keyed by path and reset of
exported. -/
def REMOVE_CLIP (s : IHighlighterState) (clipPath : String) : IHighlighterState :=
  { s with
    clips := s.clips.filter (fun c => c.path ≠ clipPath)
    exportInfo := { s.exportInfo with exported := false } }

/-- Partial IExportInfo for SET_EXPORT_INFO. -/
structure ExportPatch where
  exporting : Option Bool := none
  currentFrame : Option Int := none
  totalFrames : Option Int := none
  step : Option EExportStep := none
  cancelRequested : Option Bool := none
  file : Option String := none
  previewFile : Option String := none
  exported : Option Bool := none
  error : Option (Option String) := none
  fps : Option Int := none
  resolution : Option Int := none
  preset : Option String := none
deriving DecidableEq, Repr

/-- Models the SET_EXPORT_INFO mutation: exported defaults to false
unless the patch itself carries an exported value. -/
def SET_EXPORT_INFO (s : IHighlighterState) (p : ExportPatch) : IHighlighterState :=
  let e := s.exportInfo
  { s with exportInfo :=
    { exporting := p.exporting.getD e.exporting
      currentFrame := p.currentFrame.getD e.currentFrame
      totalFrames := p.totalFrames.getD e.totalFrames
      step := p.step.getD e.step
      cancelRequested := p.cancelRequested.getD e.cancelRequested
      file := p.file.getD e.file
      previewFile := p.previewFile.getD e.previewFile
      exported := p.exported.getD false
      error := p.error.getD e.error
      fps := p.fps.getD e.fps
      resolution := p.resolution.getD e.resolution
      preset := p.preset.getD e.preset } }

/-- Partial IUploadInfo for SET_UPLOAD_INFO; platform is mandatory. -/
structure UploadPatch where
  platform : EUploadPlatform
  uploading : Option Bool := none
  uploadedBytes : Option Int := none
  totalBytes : Option Int := none
  cancelRequested : Option Bool := none
  videoId : Option (Option String) := none
  error : Option Bool := none
deriving DecidableEq, Repr

/-- Spread of an UploadPatch over a stored upload record. -/
def applyUploadPatch (u : IUploadInfo) (p : UploadPatch) : IUploadInfo :=
  { platform := p.platform
    uploading := p.uploading.getD u.uploading
    uploadedBytes := p.uploadedBytes.getD u.uploadedBytes
    totalBytes := p.totalBytes.getD u.totalBytes
    cancelRequested := p.cancelRequested.getD u.cancelRequested
    videoId := p.videoId.getD u.videoId
    error := p.error.getD u.error }

/-- The default record created on first upload attempt for a platform. -/
def newUploadInfo (p : UploadPatch) : IUploadInfo :=
  { platform := p.platform
    uploading := p.uploading.getD false
    uploadedBytes := p.uploadedBytes.getD 0
    totalBytes := p.totalBytes.getD 0
    cancelRequested := p.cancelRequested.getD false
    videoId := p.videoId.getD none
    error := p.error.getD false }

/-- Models the SET_UPLOAD_INFO mutation: merge into the existing record of
that platform, or push a fresh record built from defaults. -/
def SET_UPLOAD_INFO (s : IHighlighterState) (p : UploadPatch) : IHighlighterState :=
  if s.uploads.any (fun u => u.platform = p.platform) then
    { s with uploads :=
        s.uploads.map (fun u => if u.platform = p.platform then applyUploadPatch u p else u) }
  else
    { s with uploads := s.uploads ++ [newUploadInfo p] }

/-- Partial ITransitionInfo. -/
structure TransitionPatch where
  type : Option String := none
  duration : Option Int := none
deriving DecidableEq, Repr

/-- Models the SET_TRANSITION_INFO mutation (also resets exported). -/
def SET_TRANSITION_INFO (s : IHighlighterState) (p : TransitionPatch) : IHighlighterState :=
  { s with
    transition :=
      { type := p.type.getD s.transition.type
        duration := p.duration.getD s.transition.duration }
    exportInfo := { s.exportInfo with exported := false } }

/-- Partial IAudioInfo. -/
structure AudioPatch where
  musicEnabled : Option Bool := none
  musicPath : Option String := none
  musicVolume : Option Int := none
deriving DecidableEq, Repr

/-- Models the SET_AUDIO_INFO mutation (also resets exported). -/
def SET_AUDIO_INFO (s : IHighlighterState) (p : AudioPatch) : IHighlighterState :=
  { s with
    audio :=
      { musicEnabled := p.musicEnabled.getD s.audio.musicEnabled
        musicPath := p.musicPath.getD s.audio.musicPath
        musicVolume := p.musicVolume.getD s.audio.musicVolume }
    exportInfo := { s.exportInfo with exported := false } }

/-- Partial IVideoInfo. -/
structure VideoPatch where
  intro : Option VideoEntry := none
  outro : Option VideoEntry := none
deriving DecidableEq, Repr

/-- Models the SET_VIDEO_INFO mutation (also resets exported). -/
def SET_VIDEO_INFO (s : IHighlighterState) (p : VideoPatch) : IHighlighterState :=
  { s with
    video :=
      { intro := p.intro.getD s.video.intro
        outro := p.outro.getD s.video.outro }
    exportInfo := { s.exportInfo with exported := false } }

/-- Models the SET_ERROR mutation. -/
def SET_ERROR (s : IHighlighterState) (e : String) : IHighlighterState :=
  { s with error := e }

/-- Models ADD_HIGHLIGHTED_STREAM and UPDATE_HIGHLIGHTED_STREAM: Vue.set
on the dictionary keyed by the stream id. -/
def UPDATE_HIGHLIGHTED_STREAM (s : IHighlighterState) (st : IHighlightedStream) :
    IHighlighterState :=
  if s.highlightedStreamsDictionary.any (fun x => x.id = st.id) then
    { s with highlightedStreamsDictionary :=
        s.highlightedStreamsDictionary.map (fun x => if x.id = st.id then st else x) }
  else
    { s with highlightedStreamsDictionary := s.highlightedStreamsDictionary ++ [st] }

/-- Models REMOVE_HIGHLIGHTED_STREAM. -/
def REMOVE_HIGHLIGHTED_STREAM (s : IHighlighterState) (id : String) : IHighlighterState :=
  { s with highlightedStreamsDictionary :=
      s.highlightedStreamsDictionary.filter (fun x => x.id ≠ id) }

/-- Lookup of a stream record in the dictionary. -/
def findStream (s : IHighlighterState) (id : String) : Option IHighlightedStream :=
  s.highlightedStreamsDictionary.find? (fun x => x.id = id)

-- =====================================================================
-- Scrub file and stream pruning helpers used by removeClip
-- =====================================================================

/-- Models removeScrubFile: fs.remove of the scrub sprite when present
(removing a missing file is not an error for fs.remove). -/
def removeScrubFileW (w : World) (clipPath : Option String) : World :=
  match clipPath with
  | none => w
  | some s => { w with files := w.files.filter (fun f => f ≠ s) }

/-- Models the tail of removeClip: for each relevant stream id, the
stream record is dropped when no remaining clip is associated with it. -/
def pruneStreamsFor (w : World) (clip : Clip) (streamId : Option String) : World :=
  if clip.streamInfo.isSome || streamId.isSome then
    let ids := match streamId with
      | some s => [s]
      | none => (clip.streamInfo.getD []).map Prod.fst
    ids.foldl (fun w id =>
      if w.state.clips.any (fun c => hasStream c id) then w
      else { w with state := REMOVE_HIGHLIGHTED_STREAM w.state id }) w
  else w

/-- Behaviour of removeClip on a path whose backing file is absent: the
association-only branch cannot be taken (fileExists is false), and inside
the full-removal branch fs.unlink rejects with ENOENT, so the folder
cleanup, the inner getClips call and the navigation check are skipped by
the catch.  This specialised function lets the self-healing read path be
defined without mutual recursion; removeClip below performs the same
steps on absent files. -/
def removeClipMissing (w : World) (removePath : String) (streamId : Option String) : World :=
  match w.state.clips.find? (fun c => c.path = removePath) with
  | none => w
  | some clip =>
    let w := { w with state := REMOVE_CLIP w.state removePath }
    let w := removeScrubFileW w clip.scrubSprite
    let w := { w with renderingClips := w.renderingClips.filter (fun p => p ≠ removePath) }
    pruneStreamsFor w clip streamId

-- =====================================================================
-- getClips: the self-healing query over a snapshot of the clip list
-- =====================================================================

/-- The filter body of getClips, one snapshot element at a time: the add
sentinel is skipped, a clip whose file is gone is removed from state as a
side effect and not returned, and with a stream id only clips associated
with that stream are returned. -/
def getClipsGo (streamId : Option String) : World → List Clip → List Clip × World
  | w, [] => ([], w)
  | w, c :: rest =>
    if c.path = "add" then getClipsGo streamId w rest
    else if fileExists w.files c.path then
      match streamId with
      | some s =>
        if hasStream c s then
          let (res, w') := getClipsGo streamId w rest
          (c :: res, w')
        else getClipsGo streamId w rest
      | none =>
        let (res, w') := getClipsGo streamId w rest
        (c :: res, w')
    else getClipsGo streamId (removeClipMissing w c.path streamId) rest

/-- Models getClips(clips, streamId): returns the existence-checked,
stream-filtered view and the state after the self-healing removals. -/
def getClips (w : World) (clips : List Clip) (streamId : Option String) : List Clip × World :=
  getClipsGo streamId w clips

-- =====================================================================
-- removeClip
-- =====================================================================

/-- The unlink step of the full-removal arm: when deleteClipFromSystem
is set and the file exists, unlink it and run the empty-view check (a
getClips call whose healing side effects are kept); an absent file makes
unlink reject, skipping both. -/
def removeClipUnlink (w : World) (removePath : String) (streamId : Option String)
    (deleteClipFromSystem : Bool) : World :=
  if deleteClipFromSystem then
    if fileExists w.files removePath then
      (getClips { w with files := w.files.filter (fun f => f ≠ removePath) }
        ({ w with files := w.files.filter (fun f => f ≠ removePath) } : World).state.clips
        streamId).2
    else w
  else w

/-- The full-removal arm of removeClip: drop the record, its scrub sprite
artifact and its RenderingClip, then attempt the unlink step. -/
def removeClipFull (w : World) (removePath : String) (clip : Clip)
    (streamId : Option String) (deleteClipFromSystem : Bool) : World :=
  removeClipUnlink
    { removeScrubFileW { w with state := REMOVE_CLIP w.state removePath } clip.scrubSprite with
        renderingClips := (removeScrubFileW { w with state := REMOVE_CLIP w.state removePath }
          clip.scrubSprite).renderingClips.filter (fun p => p ≠ removePath) }
    removePath streamId deleteClipFromSystem

/-- The branch choice of removeClip: with a stream id and more than one
association on an existing file, only that one association is dropped;
otherwise the record is fully removed. -/
def removeClipBranch (w : World) (removePath : String) (clip : Clip)
    (streamId : Option String) (deleteClipFromSystem : Bool) : World :=
  match streamId, clip.streamInfo with
  | some s, some m =>
    if fileExists w.files removePath && m.length > 1 then
      { w with state := UPDATE_CLIP w.state {
            path := clip.path, streamInfo := some (some (aerase m s)) } }
    else removeClipFull w removePath clip streamId deleteClipFromSystem
  | _, _ => removeClipFull w removePath clip streamId deleteClipFromSystem

/-- Models removeClip(removePath, streamId, deleteClipFromSystem).  When
the file exists, a stream id is given and the clip has more than one
stream association, only that association is dropped; otherwise the
record is fully removed.  Afterwards any relevant stream with no
remaining clips is pruned. -/
def removeClip (w : World) (removePath : String) (streamId : Option String)
    (deleteClipFromSystem : Bool) : World :=
  match w.state.clips.find? (fun c => c.path = removePath) with
  | none => w
  | some clip =>
    pruneStreamsFor (removeClipBranch w removePath clip streamId deleteClipFromSystem)
      clip streamId

-- =====================================================================
-- loadClips
-- =====================================================================

/-- The localized error recorded when an unsupported file is imported. -/
def unsupportedFormatError : String :=
  "One or more clips could not be imported because they were not recorded in a supported file format."

/-- The per-clip scan of loadClips: a vanished file removes the clip and
aborts the whole call (the code returns from inside the loop); an
unsupported extension removes the clip and records the error but
continues; every visited clip gets a RenderingClip handle. -/
def loadClipsScan (streamInfoId : Option String) : World → List Clip → World × Bool
  | w, [] => (w, false)
  | w, c :: rest =>
    if fileExists w.files c.path = false then
      (removeClip w c.path streamInfoId true, true)
    else
      let w :=
        if w.supported c.path then w
        else { removeClip w c.path streamInfoId true with
                 state := SET_ERROR (removeClip w c.path streamInfoId true).state unsupportedFormatError }
      let w :=
        if w.renderingClips.contains c.path then w
        else { w with renderingClips := w.renderingClips ++ [c.path] }
      loadClipsScan streamInfoId w rest

/-- Models loadClips(streamInfoId): query the clips, scan them, then (if
the scan did not abort) hydrate each unloaded clip through the bounded
worker pool; each completion applies one UPDATE_CLIP with the probe
results.  Completion order does not matter for the final state because
the per-path updates touch distinct records, so the pool is modelled as a
left fold. -/
def loadClips (w : World) (streamInfoId : Option String) : World :=
  let q := getClips w w.state.clips streamInfoId
  let clipsToLoad := q.1
  let w1 := q.2
  let r := loadClipsScan streamInfoId w1 clipsToLoad
  let w2 := r.1
  let aborted := r.2
  if aborted then w2
  else
    (clipsToLoad.filter (fun c => !c.loaded)).foldl (fun w c =>
      { w with state := UPDATE_CLIP w.state {
            path := c.path
            loaded := some true
            scrubSprite := some (w.probeScrub c.path)
            duration := some (w.probeDuration c.path)
            deleted := some (w.probeDeleted c.path) } }) w2

-- =====================================================================
-- addClips
-- =====================================================================

/-- Input element of addClips. -/
structure NewClipInput where
  path : String
  startTime : Option Int := none
  endTime : Option Int := none
deriving DecidableEq, Repr

/-- The streamInfo increment applied by the manual insert to every
existing clip of the stream; the forEach returns early (no patch) when
the clip has no entry for the stream. -/
def manualStreamPatch (s : String) (clip : Clip) : Option ClipPatch :=
  match clip.streamInfo with
  | none => none
  | some m =>
    match alookup m s with
    | none => none
    | some e =>
      some { path := clip.path
             streamInfo := some (some (aset m s { e with orderPosition := e.orderPosition + 1 })) }

/-- The globalOrderPosition increment applied by the manual insert to
every existing clip. -/
def globalBumpPatch (clip : Clip) : Option ClipPatch :=
  some { path := clip.path, globalOrderPosition := some (clip.globalOrderPosition + 1) }

/-- A forEach over a snapshot list applying an UPDATE_CLIP patch computed
from each snapshot element (none models an early return). -/
def applyPatches (w : World) (f : Clip → Option ClipPatch) (l : List Clip) : World :=
  l.foldl (fun w c =>
    match f c with
    | none => w
    | some p => { w with state := UPDATE_CLIP w.state p }) w

/-- One iteration of the addClips forEach at the given batch index. -/
def addClipsStep (w : World) (clipData : NewClipInput) (index : Nat)
    (streamId : Option String) (source : AddSource) : World :=
  let (currentClips, w) := getClips w w.state.clips streamId
  let (allClips, w) := getClips w w.state.clips none
  let getHighestGlobalOrderPosition := allClips.length
  let res : List (String × TStreamInfo) × World :=
    match source with
    | .Manual =>
      match streamId with
      | some s =>
        let w := applyPatches w (manualStreamPatch s) currentClips
        let w := applyPatches w globalBumpPatch allClips
        ([(s, { orderPosition := (index : Int) })], w)
      | none =>
        let w := applyPatches w globalBumpPatch currentClips
        ([], w)
    | .ReplayBuffer =>
      match streamId with
      | some s =>
        ([(s, { orderPosition := (index : Int) + currentClips.length + 1
                initialStartTime := clipData.startTime
                initialEndTime := clipData.endTime })], w)
      | none => ([], w)
  let newStreamInfo := res.1
  let w := res.2
  match w.state.clips.find? (fun c => c.path = clipData.path) with
  | some old =>
    let merged := newStreamInfo.foldl (fun m kv => aset m kv.1 kv.2) (old.streamInfo.getD [])
    { w with state := UPDATE_CLIP w.state {
          path := clipData.path, streamInfo := some (some merged) } }
  | none =>
    { w with state := ADD_CLIP w.state {
          path := clipData.path
          loaded := false
          enabled := true
          startTrim := 0
          endTrim := 0
          deleted := false
          source := match source with | .Manual => .Manual | .ReplayBuffer => .ReplayBuffer
          globalOrderPosition :=
            match source with
            | .Manual => (index : Int)
            | .ReplayBuffer => (index : Int) + getHighestGlobalOrderPosition + 1
          streamInfo := match streamId with
            | some _ => some newStreamInfo
            | none => none } }

/-- The indexed forEach of addClips. -/
def addClipsGo (streamId : Option String) (source : AddSource) :
    Nat → World → List NewClipInput → World
  | _, w, [] => w
  | index, w, clipData :: rest =>
    addClipsGo streamId source (index + 1) (addClipsStep w clipData index streamId source) rest

/-- Models addClips(newClips, streamId, source). -/
def addClips (w : World) (newClips : List NewClipInput) (streamId : Option String)
    (source : AddSource) : World :=
  addClipsGo streamId source 0 w newClips

-- =====================================================================
-- Stable sort (JavaScript Array sort with a numeric comparator)
-- =====================================================================

/-- Stable insertion of x before the first element with a key not below
the key of x. -/
def sinsertBy (key : α → Int) (x : α) : List α → List α
  | [] => [x]
  | y :: ys => if key x ≤ key y then x :: y :: ys else y :: sinsertBy key x ys

/-- Stable ascending sort by an Int key.  Array.prototype.sort with the
comparator (a, b) => k(a) - k(b) is stable per the language standard, and
every stable ascending sort of a list is the same list, so insertion sort
is a faithful embedding that also evaluates inside the kernel. -/
def stableSortBy (key : α → Int) : List α → List α
  | [] => []
  | x :: xs => sinsertBy key x (stableSortBy key xs)

-- =====================================================================
-- addAiClips and sortStreamClipsByStartTime
-- =====================================================================

/-- Input element of addAiClips (INewClipData). -/
structure INewClipData where
  path : String
  startTime : Int
  endTime : Int
  startTrim : Int
  endTrim : Int
  aiClipInfo : AiInfo
deriving DecidableEq, Repr

/-- The sort key of sortStreamClipsByStartTime: the initialStartTime of
the association with the stream, with undefined (and 0) collapsing to 0
by the JavaScript or-default. -/
def startKey (c : Clip) (sid : String) : Int :=
  match c.streamInfo with
  | none => 0
  | some m =>
    match alookup m sid with
    | none => 0
    | some e => e.initialStartTime.getD 0

/-- The indexed forEach assigning sorted order positions; note that the
UPDATE_CLIP stores a streamInfo object containing only this stream. -/
def sortAssignGo (sid : String) : Nat → World → List Clip → World
  | _, w, [] => w
  | index, w, clip :: rest =>
    let entry : TStreamInfo :=
      match clip.streamInfo with
      | none => { orderPosition := (index : Int) }
      | some m =>
        match alookup m sid with
        | none => { orderPosition := (index : Int) }
        | some e => { e with orderPosition := (index : Int) }
    let w := { w with state := UPDATE_CLIP w.state {
          path := clip.path, streamInfo := some (some [(sid, entry)]) } }
    sortAssignGo sid (index + 1) w rest

/-- Models sortStreamClipsByStartTime(clips, newStreamInfo): sort the
clips of the stream by initialStartTime and rewrite the order positions
with the sorted ranks. -/
def sortStreamClipsByStartTime (w : World) (clips : List Clip) (sid : String) : World :=
  let q := getClips w clips (some sid)
  let allClips := q.1
  let w1 := q.2
  let sorted := stableSortBy (fun c => startKey c sid) allClips
  sortAssignGo sid 0 w1 sorted

/-- The fresh AI clip record pushed by one iteration of addAiClips. -/
def aiNewClip (sid : String) (chop ghop index : Nat) (clip : INewClipData) : Clip :=
  { path := clip.path
    loaded := false
    enabled := true
    startTrim := clip.startTrim
    endTrim := clip.endTrim
    deleted := false
    source := .AiClip
    aiInfo := some clip.aiClipInfo
    globalOrderPosition := (index : Int) + ghop + (if ghop = 0 then 0 else 1)
    streamInfo := some [(sid,
      { orderPosition := (index : Int) + chop + (if chop = 0 then 0 else 1)
        initialStartTime := some clip.startTime
        initialEndTime := some clip.endTime })] }

/-- The indexed forEach of addAiClips adding the fresh AI clip records. -/
def addAiGo (sid : String) (chop ghop : Nat) : Nat → World → List INewClipData → World
  | _, w, [] => w
  | index, w, clip :: rest =>
    let w :=
      if w.state.clips.any (fun c => c.path = clip.path) then w
      else { w with state := ADD_CLIP w.state (aiNewClip sid chop ghop index clip) }
    addAiGo sid chop ghop (index + 1) w rest

/-- Models addAiClips(newClips, newStreamInfo): append fresh AI clips at
the tail of both orderings, then reorder the stream by start time, then
load the stream clips. -/
def addAiClips (w : World) (newClips : List INewClipData) (newStreamId : String) : World :=
  let q1 := getClips w w.state.clips (some newStreamId)
  let cur := q1.1
  let wa := q1.2
  let currentHighestOrderPosition := cur.length
  let q2 := getClips wa wa.state.clips none
  let all := q2.1
  let wb := q2.2
  let getHighestGlobalOrderPosition := all.length
  let wc := addAiGo newStreamId currentHighestOrderPosition getHighestGlobalOrderPosition 0 wb newClips
  let wd := sortStreamClipsByStartTime wc wc.state.clips newStreamId
  loadClips wd (some newStreamId)

-- =====================================================================
-- Export pipeline
-- =====================================================================

/-- Models hasUnloadedClips(streamId): true when some enabled clip of the
target set is not loaded. -/
def hasUnloadedClips (w : World) (streamId : Option String) : Bool :=
  !((w.state.clips.filter (fun c =>
      if !c.enabled then false
      else match streamId with
        | none => true
        | some s => c.streamInfo.isSome && hasStream c s)).all (fun c => c.loaded))

/-- An entry of the ordered render list: the clip path with the persisted
trim points (the RenderingClip decode handles are external). -/
structure RenderingClipM where
  path : String
  startTrim : Int
  endTrim : Int
deriving DecidableEq, Repr

/-- The per-stream order key used by generateRenderingClips. -/
def orderKey (c : Clip) (sid : String) : Int :=
  match c.streamInfo with
  | none => 0
  | some m =>
    match alookup m sid with
    | none => 0
    | some e => e.orderPosition

/-- Models generateRenderingClips(streamId, orientation): per-stream order
when a stream id is given (through the self-healing query), global order
otherwise (directly over state.clips); unless the orientation is
vertical, the configured intro is prepended and outro appended. -/
def generateRenderingClips (w : World) (streamId : Option String) (orientation : String) :
    List RenderingClipM × World :=
  let res : List RenderingClipM × World :=
    match streamId with
    | some s =>
      let (cl, w) := getClips w w.state.clips (some s)
      let cl := cl.filter (fun c => c.enabled && c.streamInfo.isSome && hasStream c s)
      let cl := stableSortBy (fun c => orderKey c s) cl
      (cl.map (fun c => { path := c.path, startTrim := c.startTrim, endTrim := c.endTrim }), w)
    | none =>
      let cl := w.state.clips.filter (fun c => c.enabled)
      let cl := stableSortBy (fun c => c.globalOrderPosition) cl
      (cl.map (fun c => { path := c.path, startTrim := c.startTrim, endTrim := c.endTrim }), w)
  let rcs := res.1
  let w := res.2
  let rcs :=
    if w.state.video.intro.path ≠ "" && orientation ≠ "vertical" then
      { path := w.state.video.intro.path, startTrim := 0, endTrim := 0 } :: rcs
    else rcs
  let rcs :=
    if w.state.video.outro.path ≠ "" && orientation ≠ "vertical" then
      rcs ++ [{ path := w.state.video.outro.path, startTrim := 0, endTrim := 0 }]
    else rcs
  (rcs, w)

/-- The user-facing error recorded when the render set becomes empty. -/
def exportNoClipsError : String :=
  "Please select at least one clip to export a video"

/-- Models export(preview, streamId, orientation) up to the hand-off to
the external renderer.  The returned flag is true exactly when a render
job is dispatched (startRendering is invoked).  The per-clip reset
outcome of the RenderingClip pool is the resetDeleted oracle; a clip
flagged deleted during reset is reflected into the ledger and filtered
out of the render set. -/
def exportVideo (w : World) (preview : Bool) (streamId : Option String)
    (orientation : String) : World × Bool :=
  let w := { w with renderingClips := [] }
  let w := loadClips w streamId
  if hasUnloadedClips w streamId then (w, false)
  else if w.state.exportInfo.exporting then (w, false)
  else
    let w := { w with state := SET_EXPORT_INFO w.state {
        exporting := some true
        currentFrame := some 0
        step := some .AudioMix
        cancelRequested := some false
        error := some none } }
    let res := generateRenderingClips w streamId orientation
    let rcs := res.1
    let w := res.2
    let w := rcs.foldl (fun w rc =>
      if w.resetDeleted rc.path then
        { w with state := UPDATE_CLIP w.state { path := rc.path, deleted := some true } }
      else w) w
    let rcs := rcs.filter (fun rc => !w.resetDeleted rc.path)
    if rcs.isEmpty then
      ({ w with state := SET_EXPORT_INFO w.state {
          exporting := some false
          exported := some false
          error := some (some exportNoClipsError) } }, false)
    else (w, true)

-- =====================================================================
-- Upload manager
-- =====================================================================

/-- Models getUploadInfo: the record of a platform, if any. -/
def getUploadInfo (uploads : List IUploadInfo) (platform : EUploadPlatform) :
    Option IUploadInfo :=
  uploads.find? (fun u => u.platform = platform)

/-- Models uploadYoutube(options, streamId).  ytLinked models the linked
YouTube account check; outcome is the result of awaiting the external
uploader (some id on success, none on failure or cancellation).  The
three guards throw before any upload state is mutated. -/
def uploadYoutube (w : World) (ytLinked : Bool) (outcome : Option String) :
    Except String World :=
  if !ytLinked then .error "Cannot upload without YT linked"
  else if !w.state.exportInfo.exported then .error "Cannot upload when export is not complete"
  else if w.state.uploads.any (fun u => u.uploading) then
    .error "Cannot start a new upload when uploading is in progress"
  else
    let w := { w with state := SET_UPLOAD_INFO w.state {
        platform := .youtube
        uploading := some true
        cancelRequested := some false
        error := some false } }
    let w := { w with cancelFunctionSet := true }
    let w :=
      match outcome with
      | some _ => w
      | none =>
        if w.state.uploads.any (fun u => u.cancelRequested) then w
        else { w with state := SET_UPLOAD_INFO w.state { platform := .youtube, error := some true } }
    let w := { w with cancelFunctionSet := false }
    .ok { w with state := SET_UPLOAD_INFO w.state {
        platform := .youtube
        uploading := some false
        cancelRequested := some false
        videoId := some outcome } }

/-- Models uploadStorage(platform): no guard precedes the first upload
state mutation; outcome is the awaited result of the shared-storage
uploader. -/
def uploadStorage (w : World) (platform : EUploadPlatform) (outcome : Option String) : World :=
  let w := { w with state := SET_UPLOAD_INFO w.state {
      platform := platform
      uploading := some true
      cancelRequested := some false
      error := some false } }
  let w := { w with cancelFunctionSet := true }
  let w :=
    match outcome with
    | some _ => w
    | none =>
      if w.state.uploads.any (fun u => u.cancelRequested) then w
      else { w with state := SET_UPLOAD_INFO w.state {
          platform := platform, uploading := some false, error := some true } }
  let w := { w with cancelFunctionSet := false }
  { w with state := SET_UPLOAD_INFO w.state {
      platform := platform
      uploading := some false
      cancelRequested := some false
      videoId := some outcome } }

-- =====================================================================
-- The incremental-results callback of detectAndClipAiHighlights
-- =====================================================================

/-- The observable states of the renderHighlights callback, in program
order: the entry state, the state after the first updateStream, the state
after the stream is marked FINISHED, and the state after addAiClips has
ingested the cut clips.  cutHighlightClips is external; clipData is its
result.  streamId is the id of the IStreamInfoForAiHighlighter handed to
addAiClips (equal to setStreamInfo.id when the stream has an id). -/
def renderHighlightsObs (w : World) (setStreamInfo : IHighlightedStream)
    (streamId : String) (clipData : List INewClipData) : List World :=
  let w1 := { w with state := UPDATE_HIGHLIGHTED_STREAM w.state setStreamInfo }
  let finished := { setStreamInfo with stateType := .FINISHED }
  let w2 := { w1 with state := UPDATE_HIGHLIGHTED_STREAM w1.state finished }
  let w3 := addAiClips w2 clipData streamId
  [w, w1, w2, w3]

/-- The state after the whole callback body has run. -/
def renderHighlightsRun (w : World) (setStreamInfo : IHighlightedStream)
    (streamId : String) (clipData : List INewClipData) : World :=
  let w1 := { w with state := UPDATE_HIGHLIGHTED_STREAM w.state setStreamInfo }
  let finished := { setStreamInfo with stateType := .FINISHED }
  let w2 := { w1 with state := UPDATE_HIGHLIGHTED_STREAM w1.state finished }
  addAiClips w2 clipData streamId

-- =====================================================================
-- Default state (static defaultState of the service)
-- =====================================================================

/-- The export slice of the static defaultState (the previewFile name is
a temp-directory path resolved at runtime; only its literal tail is
kept). -/
def defaultExportInfo : IExportInfo :=
  { exporting := false
    currentFrame := 0
    totalFrames := 0
    step := .AudioMix
    cancelRequested := false
    file := ""
    previewFile := "highlighter-preview.mp4"
    exported := false
    error := none
    fps := 30
    resolution := 1080
    preset := "medium" }

/-- The static defaultState with a given clip map. -/
def defaultStateWith (clips : List Clip) : IHighlighterState :=
  { clips := clips
    transition := { type := "fade", duration := 1 }
    video := { intro := { path := "", duration := none }
               outro := { path := "", duration := none } }
    audio := { musicEnabled := false, musicPath := "", musicVolume := 50 }
    exportInfo := defaultExportInfo
    uploads := []
    error := ""
    highlightedStreamsDictionary := [] }

/-- A world over the default state: the given clips and existing files,
all extensions supported, trivial probe results. -/
def mkWorld (clips : List Clip) (files : List String) : World :=
  { state := defaultStateWith clips
    renderingClips := []
    files := files
    supported := fun _ => true
    probeScrub := fun _ => none
    probeDuration := fun _ => none
    probeDeleted := fun _ => false
    resetDeleted := fun _ => false
    cancelFunctionSet := false }

-- =====================================================================
-- Ordering invariants
-- =====================================================================

/-- The global ordering invariant: over the non-deleted clips, the
globalOrderPosition values are a permutation of 0..N-1. -/
def GlobalDense (clips : List Clip) : Prop :=
  ((clips.filter (fun c => !c.deleted)).map (fun c => c.globalOrderPosition)).Perm
    ((List.range (clips.filter (fun c => !c.deleted)).length).map Int.ofNat)

/-- The per-stream ordering invariant: over the clips associated with the
stream, the orderPosition values are a permutation of 0..M-1. -/
def StreamDense (clips : List Clip) (sid : String) : Prop :=
  ((clips.filter (fun c => hasStream c sid)).map (fun c => orderKey c sid)).Perm
    ((List.range (clips.filter (fun c => hasStream c sid)).length).map Int.ofNat)

instance (clips : List Clip) : Decidable (GlobalDense clips) := by
  unfold GlobalDense; exact List.decidablePerm _ _

instance (clips : List Clip) (sid : String) : Decidable (StreamDense clips sid) := by
  unfold StreamDense; exact List.decidablePerm _ _

-- =====================================================================
-- Concrete scenarios used by the counterexamples
-- =====================================================================

/-- Batch of two manual clips into an empty ledger. -/
def manualBatchWorld : World :=
  addClips (mkWorld [] ["a", "b"]) [{ path := "a" }, { path := "b" }] none .Manual

/-- Single replay-buffer clip into an empty ledger under stream S. -/
def rbSingleWorld : World :=
  addClips (mkWorld [] ["p"])
    [{ path := "p", startTime := some 5, endTime := some 25 }] (some "S") .ReplayBuffer

/-- The interleaving scenario: replay-buffer clips with start times 5 and
15 arrive one call at a time under stream S. -/
def scenarioRbWorld : World :=
  addClips
    (addClips (mkWorld [] ["p1", "p2", "q1", "q2"])
      [{ path := "p1", startTime := some 5, endTime := some 25 }] (some "S") .ReplayBuffer)
    [{ path := "p2", startTime := some 15, endTime := some 35 }] (some "S") .ReplayBuffer

/-- The interleaving scenario continued: AI clips with start times 2 and
30 are ingested under S. -/
def scenarioAiWorld : World :=
  addAiClips scenarioRbWorld
    [{ path := "q1", startTime := 2, endTime := 10, startTrim := 0, endTrim := 0, aiClipInfo := {} },
     { path := "q2", startTime := 30, endTime := 40, startTrim := 0, endTrim := 0, aiClipInfo := {} }]
    "S"

/-- A clip associated with two streams S and T. -/
def twoStreamClip : Clip :=
  { path := "a.mp4", loaded := false, enabled := true, startTrim := 0, endTrim := 0
    deleted := false, source := .ReplayBuffer, globalOrderPosition := 0
    streamInfo := some [("S", { orderPosition := 0, initialStartTime := some 5 }),
                        ("T", { orderPosition := 0 })] }

/-- The world holding only that two-stream clip. -/
def twoStreamWorld : World := mkWorld [twoStreamClip] ["a.mp4"]

/-- A record with the sentinel path used by the grid add tile. -/
def sentinelClip : Clip :=
  { path := "add", loaded := false, enabled := true, startTrim := 0, endTrim := 0
    deleted := false, source := .Manual, globalOrderPosition := 0 }

/-- The world holding only the sentinel record, with an empty disk. -/
def sentinelWorld : World := mkWorld [sentinelClip] []

/-- A world that is already exporting, with no clips. -/
def exportingWorld : World :=
  { mkWorld [] [] with state :=
    { defaultStateWith [] with exportInfo := { defaultExportInfo with exporting := true } } }

/-- A stream record in progress. -/
def inProgressStream : IHighlightedStream :=
  { id := "S", title := "t", game := "g", date := "d", stateType := .IN_PROGRESS
    progress := 50, path := "rec.mp4", hasAbortController := true }

/-- The clip data produced by the external cutter in the callback
scenario. -/
def callbackClipData : List INewClipData :=
  [{ path := "q1", startTime := 2, endTime := 10, startTrim := 0, endTrim := 0, aiClipInfo := {} }]

/-- A world with an active storage upload for the crossclip platform. -/
def activeUploadWorld : World :=
  { mkWorld [] [] with state :=
    { defaultStateWith [] with uploads :=
      [{ platform := .crossclip, uploading := true, uploadedBytes := 0, totalBytes := 100
         cancelRequested := false, videoId := none, error := false }] } }

-- =====================================================================
-- Derived shapes used in the theorems
-- =====================================================================

/-- The net effect of one manual insert on one existing clip: its
per-stream orderPosition is incremented when it is associated with the
given stream, and its globalOrderPosition is incremented. -/
def manualBump (streamId : Option String) (c : Clip) : Clip :=
  let c1 :=
    match streamId with
    | none => c
    | some s =>
      match c.streamInfo with
      | none => c
      | some m =>
        match alookup m s with
        | none => c
        | some e =>
          { c with streamInfo := some (aset m s { e with orderPosition := e.orderPosition + 1 }) }
  { c1 with globalOrderPosition := c1.globalOrderPosition + 1 }

/-- The record created by a manual insert of a fresh path at batch
index 0. -/
def manualNewClip (p : String) (streamId : Option String) : Clip :=
  { path := p, loaded := false, enabled := true, startTrim := 0, endTrim := 0
    deleted := false, source := .Manual, globalOrderPosition := 0
    streamInfo :=
      match streamId with
      | some s => some [(s, { orderPosition := 0 })]
      | none => none }

/-- The record created by a replay-buffer insert under a stream. -/
def rbClip (d : NewClipInput) (s : String) (g o : Int) : Clip :=
  { path := d.path, loaded := false, enabled := true, startTrim := 0, endTrim := 0
    deleted := false, source := .ReplayBuffer, globalOrderPosition := g
    streamInfo := some [(s, { orderPosition := o
                              initialStartTime := d.startTime
                              initialEndTime := d.endTime })] }

/-- The records a replay-buffer batch appends, starting at forEach index
idx with n clips in the ledger and m clips associated with the stream. -/
def rbExpected (s : String) : Nat → Nat → Nat → List NewClipInput → List Clip
  | _, _, _, [] => []
  | idx, n, m, d :: rest =>
    rbClip d s ((idx : Int) + n + 1) ((idx : Int) + m + 1) ::
      rbExpected s (idx + 1) (n + 1) (m + 1) rest

/-- A ledger whose records all have existing backing files and real
paths: the precondition under which the self-healing query is pure. -/
def Healthy (w : World) : Prop :=
  ∀ c ∈ w.state.clips, fileExists w.files c.path = true ∧ c.path ≠ "add"

/-- All clip files in the ledger pass the supported-extension check. -/
def AllSupported (w : World) : Prop :=
  ∀ c ∈ w.state.clips, w.supported c.path = true

instance (w : World) : Decidable (Healthy w) := by
  unfold Healthy; exact List.decidableBAll _ _

instance (w : World) : Decidable (AllSupported w) := by
  unfold AllSupported; exact List.decidableBAll _ _

/-- Whether an upload entry point rejected the call. -/
def uploadRejected : Except String World → Bool
  | .error _ => true
  | .ok _ => false

-- =====================================================================
-- Concrete instances used by the witnesses
-- =====================================================================

/-- A clip with an existing backing file. -/
def goodClip : Clip :=
  { path := "good.mp4", loaded := false, enabled := true, startTrim := 0, endTrim := 0
    deleted := false, source := .ReplayBuffer, globalOrderPosition := 0 }

/-- A clip whose backing file is gone. -/
def badClip : Clip :=
  { path := "bad.mp4", loaded := false, enabled := true, startTrim := 0, endTrim := 0
    deleted := false, source := .ReplayBuffer, globalOrderPosition := 1 }

/-- A world where good.mp4 exists on disk and bad.mp4 does not. -/
def healWorld : World := mkWorld [goodClip, badClip] ["good.mp4"]

/-- A clip associated with streams A and B, with a scrub sprite. -/
def c6ClipAB : Clip :=
  { path := "v.mp4", loaded := true, enabled := true, startTrim := 0, endTrim := 0
    deleted := false, source := .ReplayBuffer, globalOrderPosition := 0
    streamInfo := some [("A", { orderPosition := 0 }), ("B", { orderPosition := 0 })]
    scrubSprite := some "v.jpg" }

/-- A world holding that clip, its file, its sprite and its
RenderingClip. -/
def c6WorldAB : World :=
  { mkWorld [c6ClipAB] ["v.mp4", "v.jpg"] with renderingClips := ["v.mp4"] }

/-- A clip whose only association is stream A. -/
def c6ClipA : Clip :=
  { path := "w.mp4", loaded := true, enabled := true, startTrim := 0, endTrim := 0
    deleted := false, source := .ReplayBuffer, globalOrderPosition := 0
    streamInfo := some [("A", { orderPosition := 0 })]
    scrubSprite := some "w.jpg" }

/-- A world holding that single-stream clip. -/
def c6WorldA : World :=
  { mkWorld [c6ClipA] ["w.mp4", "w.jpg"] with renderingClips := ["w.mp4"] }

/-- An existing replay-buffer clip of stream S at both positions 0. -/
def rbBaseClip : Clip :=
  { path := "e0.mp4", loaded := false, enabled := true, startTrim := 0, endTrim := 0
    deleted := false, source := .ReplayBuffer, globalOrderPosition := 0
    streamInfo := some [("S", { orderPosition := 0, initialStartTime := some 1 })] }

/-- The replay-buffer batch used by the C3 witness. -/
def rbBatch : List NewClipInput :=
  [{ path := "p", startTime := some 5, endTime := some 25 },
   { path := "q", startTime := some 15, endTime := some 35 }]

/-- The dense one-clip world the C3 witness inserts into. -/
def rbBaseWorld : World := mkWorld [rbBaseClip] ["e0.mp4", "p", "q"]

-- =====================================================================
-- C10: every clip mutation and settings change resets exported
-- =====================================================================

/-- C10: adding, updating or removing any clip, and any change of the
transition, audio or video settings, resets exportInfo.exported to
false. -/
theorem claim_C10_exported_reset (s : IHighlighterState) (c : Clip) (p : ClipPatch)
    (rp : String) (tp : TransitionPatch) (ap : AudioPatch) (vp : VideoPatch) :
    (ADD_CLIP s c).exportInfo.exported = false ∧
    (UPDATE_CLIP s p).exportInfo.exported = false ∧
    (REMOVE_CLIP s rp).exportInfo.exported = false ∧
    (SET_TRANSITION_INFO s tp).exportInfo.exported = false ∧
    (SET_AUDIO_INFO s ap).exportInfo.exported = false ∧
    (SET_VIDEO_INFO s vp).exportInfo.exported = false := by
  refine ⟨?_, rfl, rfl, rfl, rfl, rfl⟩
  unfold ADD_CLIP
  split <;> rfl

-- =====================================================================
-- C4: the interleaving scenario
-- =====================================================================

/-- C4, counterexample: the two replay-buffer inserts do not yield
per-stream positions 0 and 1 as the claim states; p1 receives position 1
(and p2 receives 2). -/
theorem claim_C4_counterexample :
    ¬ (∃ c ∈ scenarioRbWorld.state.clips, c.path = "p1" ∧ orderKey c "S" = 0) := by
  decide

/-- C4, amended: the replay-buffer inserts give p1 and p2 per-stream
positions 1 and 2; after the AI clips with start times 2 and 30 are
ingested and the stream reordered, the four clips hold positions 0,1,2,3
in ascending initialStartTime order 2,5,15,30. -/
theorem claim_C4_amended :
    (scenarioRbWorld.state.clips.map (fun c => (c.path, orderKey c "S"))) =
      [("p1", 1), ("p2", 2)] ∧
    ((stableSortBy (fun c => orderKey c "S") scenarioAiWorld.state.clips).map
        (fun c => (orderKey c "S", startKey c "S"))) =
      [(0, 2), (1, 5), (2, 15), (3, 30)] := by
  decide

-- =====================================================================
-- C5: sortStreamClipsByStartTime and other stream associations
-- =====================================================================

/-- C5: the claim is right and the code is wrong.  The clip is associated
with S and T before the call; sortStreamClipsByStartTime for S stores a
streamInfo object containing only the S entry, so the T association is
destroyed (the code replaces the whole map instead of merging into it,
unlike every other streamInfo update in the service). -/
theorem claim_C5_bug :
    hasStream twoStreamClip "T" = true ∧
    (sortStreamClipsByStartTime twoStreamWorld twoStreamWorld.state.clips "S").state.clips.map
        (fun c => (c.path, hasStream c "S", hasStream c "T")) =
      [("a.mp4", true, false)] := by
  decide

-- =====================================================================
-- Counterexamples for C1, C2, C3, C7, C8, C9
-- =====================================================================

/-- C1, counterexample: one addClips call with a batch of two manual
clips on an empty ledger yields global positions 1 and 1 - not a dense
permutation of 0..1, and the most recently inserted clip is not at 0.
Each loop iteration increments every clip already present, including the
clips added by earlier iterations of the same batch. -/
theorem claim_C1_counterexample :
    (manualBatchWorld.state.clips.map (fun c => (c.path, c.globalOrderPosition))) =
      [("a", 1), ("b", 1)] ∧
    ¬ GlobalDense manualBatchWorld.state.clips := by
  constructor
  · decide
  · decide

/-- C2, counterexample: in a concrete run of the incremental-results
callback, one of the observable states has the stream marked FINISHED
while the clip cut by that callback is not yet present in the ledger (the
code marks the stream FINISHED and only afterwards calls addAiClips). -/
theorem claim_C2_counterexample :
    ∃ v ∈ renderHighlightsObs (mkWorld [] ["q1"]) inProgressStream "S" callbackClipData,
      (findStream v.state "S").map (fun st => st.stateType) = some .FINISHED ∧
      ∀ c ∈ v.state.clips, c.path ≠ "q1" := by
  decide

/-- C3, counterexample: on an empty ledger (which satisfies both density
premises) a single replay-buffer insert under stream S receives global
position 1 and per-stream position 1 instead of 0: the code adds one
more than the count, leaving a gap, so the result is not dense. -/
theorem claim_C3_counterexample :
    GlobalDense (mkWorld [] ["p"]).state.clips ∧
    StreamDense (mkWorld [] ["p"]).state.clips "S" ∧
    (rbSingleWorld.state.clips.map (fun c => (c.globalOrderPosition, orderKey c "S"))) =
      [(1, 1)] ∧
    ¬ GlobalDense rbSingleWorld.state.clips := by
  refine ⟨by decide, by decide, by decide, by decide⟩

/-- C7, counterexample: a record with the sentinel path add whose backing
file does not exist is filtered before the existence check, so it is
never removed from the state by the query. -/
theorem claim_C7_counterexample :
    fileExists sentinelWorld.files "add" = false ∧
    (getClips sentinelWorld sentinelWorld.state.clips none).1 = [] ∧
    (getClips sentinelWorld sentinelWorld.state.clips none).2.state.clips = [sentinelClip] := by
  decide

/-- C8, counterexample: export invoked while exporting is already true
returns without dispatching, but exporting stays true afterwards - it
does not remain false as the claim states. -/
theorem claim_C8_counterexample :
    exportingWorld.state.exportInfo.exporting = true ∧
    (exportVideo exportingWorld false none "horizontal").2 = false ∧
    (exportVideo exportingWorld false none "horizontal").1.state.exportInfo.exporting = true := by
  decide

/-- C9, counterexample: with an upload already active for the crossclip
platform, uploadStorage for that same platform is not rejected: it runs
to completion and mutates the upload record (storing the new video id and
clearing the uploading flag of the active session). -/
theorem claim_C9_counterexample :
    (activeUploadWorld.state.uploads.map (fun u => (u.platform, u.uploading))) =
      [(.crossclip, true)] ∧
    ((getUploadInfo (uploadStorage activeUploadWorld .crossclip (some "vid")).state.uploads
        .crossclip).map (fun u => (u.uploading, u.videoId))) =
      some (false, some "vid") := by
  decide

-- =====================================================================
-- Infrastructure lemmas: patch folds and query purity
-- =====================================================================

theorem applyClipPatch_path (c : Clip) (p : ClipPatch) : (applyClipPatch c p).path = c.path :=
  rfl

theorem applyClipPatch_deleted_of_none (c : Clip) (p : ClipPatch) (h : p.deleted = none) :
    (applyClipPatch c p).deleted = c.deleted := by
  simp [applyClipPatch, h]

theorem applyPatches_nil (w : World) (f : Clip → Option ClipPatch) :
    applyPatches w f [] = w := rfl

theorem applyPatches_cons (w : World) (f : Clip → Option ClipPatch) (c : Clip) (l : List Clip) :
    applyPatches w f (c :: l) =
      applyPatches (match f c with
        | none => w
        | some p => { w with state := UPDATE_CLIP w.state p }) f l := rfl

/-- The frame of a patch forEach: only the clip list and the export slice
of the state can change. -/
theorem applyPatches_frame (f : Clip → Option ClipPatch) :
    ∀ (l : List Clip) (w : World), ∃ cl e,
      applyPatches w f l = { w with state := { w.state with clips := cl, exportInfo := e } } := by
  intro l
  induction l with
  | nil =>
    intro w
    exact ⟨w.state.clips, w.state.exportInfo, rfl⟩
  | cons c t ih =>
    intro w
    rw [applyPatches_cons]
    cases hfc : f c with
    | none =>
      obtain ⟨cl, e, h⟩ := ih w
      exact ⟨cl, e, h⟩
    | some p =>
      obtain ⟨cl, e, h⟩ := ih { w with state := UPDATE_CLIP w.state p }
      exact ⟨cl, e, by rw [h]; rfl⟩

/-- Unfolding of find? over a cons with a decidable path test. -/
theorem find?_path_cons (y : Clip) (l : List Clip) (q : String) :
    ((y :: l).find? (fun c => c.path = q)) =
      if y.path = q then some y else l.find? (fun c => c.path = q) := by
  rw [List.find?_cons]
  by_cases h : y.path = q
  · simp [h]
  · simp [h]

/-- Characterization of a patch forEach over a snapshot list with
distinct paths: each stored clip receives the patch computed from the
snapshot element of its path, if any. -/
theorem applyPatches_clips (f : Clip → Option ClipPatch)
    (hf : ∀ c p, f c = some p → p.path = c.path) :
    ∀ (l : List Clip) (w : World), (l.map (fun c => c.path)).Nodup →
    (applyPatches w f l).state.clips =
      w.state.clips.map (fun x =>
        match l.find? (fun c => c.path = x.path) with
        | none => x
        | some c =>
          match f c with
          | none => x
          | some p => applyClipPatch x p) := by
  intro l
  induction l with
  | nil =>
    intro w _
    simp [applyPatches]
  | cons c t ih =>
    intro w hnd
    have hndt : (t.map (fun c => c.path)).Nodup := by
      simpa using hnd.of_cons
    have hcpath : c.path ∉ t.map (fun c => c.path) := by
      simp only [List.map_cons, List.nodup_cons] at hnd
      exact hnd.1
    have hfind_t_none : ∀ q : String, q = c.path →
        t.find? (fun y => y.path = q) = none := by
      intro q hq
      rw [List.find?_eq_none]
      intro y hy
      simp only [decide_eq_true_eq]
      intro hyq
      apply hcpath
      have hmem : y.path ∈ t.map (fun c => c.path) := List.mem_map_of_mem _ hy
      rw [hyq, hq] at hmem
      exact hmem
    rw [applyPatches_cons]
    cases hfc : f c with
    | none =>
      rw [ih w hndt]
      apply List.map_congr_left
      intro x _
      rw [find?_path_cons]
      by_cases hx : c.path = x.path
      · rw [if_pos hx, hfind_t_none x.path hx.symm]
        simp [hfc]
      · rw [if_neg hx]
    | some p =>
      have hppath : p.path = c.path := hf c p hfc
      rw [ih _ hndt]
      rw [show ({ w with state := UPDATE_CLIP w.state p } : World).state.clips =
            List.map (fun x => if x.path = p.path then applyClipPatch x p else x)
              w.state.clips from rfl]
      rw [List.map_map]
      apply List.map_congr_left
      intro x _
      simp only [Function.comp_apply]
      rw [find?_path_cons]
      by_cases hx : x.path = c.path
      · have hxp : x.path = p.path := by rw [hx, hppath]
        rw [if_pos hxp, if_pos hx.symm,
          hfind_t_none (applyClipPatch x p).path (by rw [applyClipPatch_path, hx])]
        simp [hfc]
      · have hxp : ¬ x.path = p.path := by rw [hppath]; exact hx
        rw [if_neg hxp, if_neg (fun h => hx h.symm)]

/-- The self-healing query is pure on a healthy snapshot: it returns the
stream filter of the snapshot and leaves the world unchanged. -/
theorem getClipsGo_pure (sid : Option String) :
    ∀ (cs : List Clip) (w : World),
    (∀ c ∈ cs, fileExists w.files c.path = true ∧ c.path ≠ "add") →
    getClipsGo sid w cs =
      (cs.filter (fun c =>
        match sid with
        | some s => hasStream c s
        | none => true), w) := by
  intro cs
  induction cs with
  | nil =>
    intro w _
    rfl
  | cons c t ih =>
    intro w h
    obtain ⟨hex, hadd⟩ := h c (List.mem_cons_self c t)
    have ht := fun c hc => h c (List.mem_cons_of_mem _ hc)
    cases sid with
    | none =>
      simp only [getClipsGo, if_neg hadd, hex, if_true, ih w ht, List.filter_cons]
    | some s =>
      by_cases hs : hasStream c s
      · simp only [getClipsGo, if_neg hadd, hex, if_true, ih w ht, List.filter_cons]
        simp [hs]
      · simp only [getClipsGo, if_neg hadd, hex, if_true, ih w ht, List.filter_cons]
        simp [hs]

/-- Purity of getClips with no stream filter. -/
theorem getClips_pure_none (w : World) (cs : List Clip)
    (h : ∀ c ∈ cs, fileExists w.files c.path = true ∧ c.path ≠ "add") :
    getClips w cs none = (cs, w) := by
  rw [getClips, getClipsGo_pure none cs w h]
  congr 1
  exact List.filter_eq_self.mpr (fun c _ => rfl)

/-- Purity of getClips with a stream filter. -/
theorem getClips_pure_some (w : World) (cs : List Clip) (s : String)
    (h : ∀ c ∈ cs, fileExists w.files c.path = true ∧ c.path ≠ "add") :
    getClips w cs (some s) = (cs.filter (fun c => hasStream c s), w) := by
  rw [getClips, getClipsGo_pure (some s) cs w h]

/-- In a list with distinct paths, the path search finds the member
itself. -/
theorem find?_path_mem :
    ∀ (cs : List Clip), (cs.map (fun c => c.path)).Nodup →
    ∀ x ∈ cs, cs.find? (fun c => c.path = x.path) = some x := by
  intro cs
  induction cs with
  | nil =>
    intro _ x hx
    exact absurd hx (List.not_mem_nil x)
  | cons y t ih =>
    intro hnd x hx
    have hndt : (t.map (fun c => c.path)).Nodup := by simpa using hnd.of_cons
    have hynotin : y.path ∉ t.map (fun c => c.path) := by
      simp only [List.map_cons, List.nodup_cons] at hnd
      exact hnd.1
    rw [find?_path_cons]
    rcases List.mem_cons.mp hx with rfl | hxt
    · rw [if_pos rfl]
    · have hne : y.path ≠ x.path := by
        intro he
        apply hynotin
        have hxm : x.path ∈ t.map (fun c => c.path) := by
          simpa using List.mem_map_of_mem (fun c => c.path) hxt
        rw [he]
        exact hxm
      rw [if_neg hne]
      exact ih hndt x hxt

/-- In a list with distinct paths, the path search inside a filter finds
the member exactly when it passes the filter. -/
theorem find?_path_filter (P : Clip → Bool) :
    ∀ (cs : List Clip), (cs.map (fun c => c.path)).Nodup →
    ∀ x ∈ cs, (cs.filter P).find? (fun c => c.path = x.path) =
      if P x then some x else none := by
  intro cs
  induction cs with
  | nil =>
    intro _ x hx
    exact absurd hx (List.not_mem_nil x)
  | cons y t ih =>
    intro hnd x hx
    have hndt : (t.map (fun c => c.path)).Nodup := by simpa using hnd.of_cons
    have hynotin : y.path ∉ t.map (fun c => c.path) := by
      simp only [List.map_cons, List.nodup_cons] at hnd
      exact hnd.1
    have hnone : ∀ z : Clip, z.path = y.path → (t.filter P).find? (fun c => c.path = z.path) = none := by
      intro z hz
      rw [List.find?_eq_none]
      intro u hu
      simp only [decide_eq_true_eq]
      intro huz
      apply hynotin
      have : u.path ∈ t.map (fun c => c.path) :=
        List.mem_map_of_mem _ (List.mem_of_mem_filter hu)
      rw [huz, hz] at this
      exact this
    rw [List.filter_cons]
    rcases List.mem_cons.mp hx with rfl | hxt
    · by_cases hP : P x
      · rw [if_pos hP, find?_path_cons, if_pos rfl, if_pos hP]
      · simp only [hP]
        rw [if_neg (by simp [hP]), if_neg (by simp [hP])]
        exact hnone x rfl
    · have hne : y.path ≠ x.path := by
        intro he
        apply hynotin
        have hxm : x.path ∈ t.map (fun c => c.path) := by
          simpa using List.mem_map_of_mem (fun c => c.path) hxt
        rw [he]
        exact hxm
      by_cases hP : P y
      · rw [if_pos hP, find?_path_cons, if_neg hne]
        exact ih hndt x hxt
      · rw [if_neg (by simp [hP])]
        exact ih hndt x hxt

theorem manualBump_path (sid : Option String) (c : Clip) : (manualBump sid c).path = c.path := by
  cases sid with
  | none => rfl
  | some s =>
    cases hm : c.streamInfo with
    | none => simp [manualBump, hm]
    | some m =>
      cases he : alookup m s with
      | none => simp [manualBump, hm, he]
      | some e => simp [manualBump, hm, he]

theorem manualBump_global (sid : Option String) (c : Clip) :
    (manualBump sid c).globalOrderPosition = c.globalOrderPosition + 1 := by
  cases sid with
  | none => rfl
  | some s =>
    cases hm : c.streamInfo with
    | none => simp [manualBump, hm]
    | some m =>
      cases he : alookup m s with
      | none => simp [manualBump, hm, he]
      | some e => simp [manualBump, hm, he]

theorem manualBump_deleted (sid : Option String) (c : Clip) :
    (manualBump sid c).deleted = c.deleted := by
  cases sid with
  | none => rfl
  | some s =>
    cases hm : c.streamInfo with
    | none => simp [manualBump, hm]
    | some m =>
      cases he : alookup m s with
      | none => simp [manualBump, hm, he]
      | some e => simp [manualBump, hm, he]

theorem ADD_CLIP_fresh (s : IHighlighterState) (clip : Clip)
    (h : ∀ c ∈ s.clips, c.path ≠ clip.path) :
    (ADD_CLIP s clip).clips = s.clips ++ [clip] := by
  unfold ADD_CLIP
  have : s.clips.any (fun c => c.path = clip.path) = false := by
    rw [List.any_eq_false]
    intro c hc
    simp only [decide_eq_true_eq]
    exact h c hc
  simp [this]

/-- The effect of the manual forEach update without a stream id. -/
theorem manual_folds_none (w : World)
    (hnd : (w.state.clips.map (fun c => c.path)).Nodup) :
    (applyPatches w globalBumpPatch w.state.clips).state.clips =
      w.state.clips.map (manualBump none) := by
  have hf2 : ∀ c p, globalBumpPatch c = some p → p.path = c.path := by
    intro c p h
    have := Option.some.inj h
    rw [← this]
  rw [applyPatches_clips globalBumpPatch hf2 w.state.clips w hnd]
  apply List.map_congr_left
  intro x hx
  rw [find?_path_mem w.state.clips hnd x hx]
  rfl

theorem manualStreamPatch_path (s : String) (c : Clip) (p : ClipPatch)
    (h : manualStreamPatch s c = some p) : p.path = c.path := by
  cases hm : c.streamInfo with
  | none => simp [manualStreamPatch, hm] at h
  | some m =>
    cases he : alookup m s with
    | none => simp [manualStreamPatch, hm, he] at h
    | some e =>
      simp only [manualStreamPatch, hm, he] at h
      have he2 := Option.some.inj h
      rw [← he2]

theorem globalBumpPatch_path (c : Clip) (p : ClipPatch)
    (h : globalBumpPatch c = some p) : p.path = c.path := by
  have := Option.some.inj h
  rw [← this]

/-- The combined effect of the two manual forEach updates with a stream
id: every clip gets its manual bump. -/
theorem manual_folds_some (w : World) (s : String)
    (hnd : (w.state.clips.map (fun c => c.path)).Nodup) :
    (applyPatches
        (applyPatches w (manualStreamPatch s) (w.state.clips.filter (fun c => hasStream c s)))
        globalBumpPatch w.state.clips).state.clips =
      w.state.clips.map (manualBump (some s)) := by
  have hndf : ((w.state.clips.filter (fun c => hasStream c s)).map (fun c => c.path)).Nodup :=
    List.Nodup.sublist (List.Sublist.map _ (List.filter_sublist _)) hnd
  have h1 := applyPatches_clips (manualStreamPatch s) (manualStreamPatch_path s)
    (w.state.clips.filter (fun c => hasStream c s)) w hndf
  have h2 := applyPatches_clips globalBumpPatch globalBumpPatch_path w.state.clips
    (applyPatches w (manualStreamPatch s) (w.state.clips.filter (fun c => hasStream c s))) hnd
  rw [h2, h1, List.map_map]
  apply List.map_congr_left
  intro x hx
  simp only [Function.comp_apply]
  rw [find?_path_filter (fun c => hasStream c s) w.state.clips hnd x hx]
  by_cases hs : hasStream x s
  · simp only [if_pos hs]
    cases hp1 : manualStreamPatch s x with
    | none =>
      exfalso
      cases hm : x.streamInfo with
      | none => simp [hasStream, hm] at hs
      | some m =>
        cases he : alookup m s with
        | none => simp [hasStream, hm, he] at hs
        | some e => simp [manualStreamPatch, hm, he] at hp1
    | some p1 =>
      simp only [hp1]
      simp only [applyClipPatch_path]
      rw [find?_path_mem w.state.clips hnd x hx]
      simp only [globalBumpPatch]
      cases hm : x.streamInfo with
      | none => exfalso; simp [hasStream, hm] at hs
      | some m =>
        cases he : alookup m s with
        | none => exfalso; simp [hasStream, hm, he] at hs
        | some e =>
          simp only [manualStreamPatch, hm, he] at hp1
          have hp1e := Option.some.inj hp1
          subst hp1e
          simp [manualBump, hm, he, applyClipPatch]
  · simp only [if_neg hs]
    show (match List.find? (fun c => decide (c.path = x.path)) w.state.clips with
      | none => x
      | some c =>
        match globalBumpPatch c with
        | none => x
        | some p => applyClipPatch x p) = manualBump (some s) x
    rw [find?_path_mem w.state.clips hnd x hx]
    simp only [globalBumpPatch]
    cases hm : x.streamInfo with
    | none => simp [manualBump, hm, applyClipPatch]
    | some m =>
      cases he : alookup m s with
      | none => simp [manualBump, hm, he, applyClipPatch]
      | some e => exfalso; simp [hasStream, hm, he] at hs

/-- One manual insert of a fresh clip: every existing clip is bumped and
the new record is appended with global position 0. -/
theorem addClips_manual_single (w : World) (p : String) (sid : Option String)
    (hw : Healthy w)
    (hnd : (w.state.clips.map (fun c => c.path)).Nodup)
    (hpa : p ≠ "add")
    (hfresh : ∀ c ∈ w.state.clips, c.path ≠ p) :
    (addClips w [{ path := p }] sid .Manual).state.clips =
      w.state.clips.map (manualBump sid) ++ [manualNewClip p sid] ∧
    (addClips w [{ path := p }] sid .Manual).files = w.files := by
  have hstep : addClips w [{ path := p }] sid .Manual
      = addClipsStep w { path := p } 0 sid .Manual := rfl
  rw [hstep]
  cases sid with
  | none =>
    obtain ⟨cl2, e2, hfr⟩ := applyPatches_frame globalBumpPatch w.state.clips w
    have hclips2 := manual_folds_none w hnd
    have hpaths2 : ∀ c ∈ (applyPatches w globalBumpPatch w.state.clips).state.clips,
        c.path ≠ p := by
      intro c hc
      rw [hclips2] at hc
      obtain ⟨y, hy, rfl⟩ := List.mem_map.mp hc
      rw [manualBump_path]
      exact hfresh y hy
    have hfind : (applyPatches w globalBumpPatch w.state.clips).state.clips.find?
        (fun c => c.path = p) = none := by
      rw [List.find?_eq_none]
      intro c hc
      simp only [decide_eq_true_eq]
      exact hpaths2 c hc
    have hadd := ADD_CLIP_fresh (applyPatches w globalBumpPatch w.state.clips).state
      { path := p, loaded := false, enabled := true, startTrim := 0, endTrim := 0
        deleted := false, source := .Manual
        globalOrderPosition := ((0 : Nat) : Int), streamInfo := none }
      (fun c hc => hpaths2 c hc)
    unfold addClipsStep
    simp only [getClips_pure_none w w.state.clips hw]
    simp only [hfind]
    refine ⟨?_, ?_⟩
    · simp only [hadd, hclips2]
      rfl
    · simp only [hfr]
  | some s =>
    obtain ⟨cl1, e1, hfr1⟩ := applyPatches_frame (manualStreamPatch s)
      (w.state.clips.filter (fun c => hasStream c s)) w
    obtain ⟨cl2, e2, hfr2⟩ := applyPatches_frame globalBumpPatch w.state.clips
      (applyPatches w (manualStreamPatch s) (w.state.clips.filter (fun c => hasStream c s)))
    have hclips2 := manual_folds_some w s hnd
    have hpaths2 : ∀ c ∈ (applyPatches
        (applyPatches w (manualStreamPatch s) (w.state.clips.filter (fun c => hasStream c s)))
        globalBumpPatch w.state.clips).state.clips, c.path ≠ p := by
      intro c hc
      rw [hclips2] at hc
      obtain ⟨y, hy, rfl⟩ := List.mem_map.mp hc
      rw [manualBump_path]
      exact hfresh y hy
    have hfind : (applyPatches
        (applyPatches w (manualStreamPatch s) (w.state.clips.filter (fun c => hasStream c s)))
        globalBumpPatch w.state.clips).state.clips.find? (fun c => c.path = p) = none := by
      rw [List.find?_eq_none]
      intro c hc
      simp only [decide_eq_true_eq]
      exact hpaths2 c hc
    have hadd := ADD_CLIP_fresh (applyPatches
        (applyPatches w (manualStreamPatch s) (w.state.clips.filter (fun c => hasStream c s)))
        globalBumpPatch w.state.clips).state
      { path := p, loaded := false, enabled := true, startTrim := 0, endTrim := 0
        deleted := false, source := .Manual
        globalOrderPosition := ((0 : Nat) : Int)
        streamInfo := some [(s, { orderPosition := ((0 : Nat) : Int) })] }
      (fun c hc => hpaths2 c hc)
    unfold addClipsStep
    simp only [getClips_pure_some w w.state.clips s hw, getClips_pure_none w w.state.clips hw]
    simp only [hfind]
    refine ⟨?_, ?_⟩
    · simp only [hadd, hclips2]
      rfl
    · rw [hfr2]
      simp only [hfr1]

/-- Shifting a dense permutation up by one and appending 0 gives the next
dense permutation. -/
theorem dense_cons_shift (l : List Int) (n : Nat)
    (h : l.Perm ((List.range n).map Int.ofNat)) :
    (l.map (fun z => z + 1) ++ [(0 : Int)]).Perm
      ((List.range (n + 1)).map Int.ofNat) := by
  have h1 := List.perm_append_singleton (0 : Int) (l.map (fun z => z + 1))
  have h2 : (l.map (fun z => z + 1)).Perm
      (((List.range n).map Int.ofNat).map (fun z => z + 1)) := h.map _
  have h3 : ((List.range n).map Int.ofNat).map (fun z => z + 1) =
      (List.range n).map (fun k => Int.ofNat (Nat.succ k)) := by
    rw [List.map_map]
    apply List.map_congr_left
    intro a _
    simp [Function.comp, Int.ofNat_succ]
  have h4 : (List.range (n + 1)).map Int.ofNat =
      (0 : Int) :: (List.range n).map (fun k => Int.ofNat (Nat.succ k)) := by
    rw [List.range_succ_eq_map, List.map_cons, List.map_map]
    rfl
  have h5 : (l.map (fun z => z + 1)).Perm
      ((List.range n).map (fun k => Int.ofNat (Nat.succ k))) := h3 ▸ h2
  rw [h4]
  exact h1.trans (h5.cons 0)

/-- Over an all-live clip list the dense invariant is about the plain
position list. -/
theorem globalDense_of_all (clips : List Clip) (h : ∀ c ∈ clips, c.deleted = false) :
    GlobalDense clips ↔ (clips.map (fun c => c.globalOrderPosition)).Perm
      ((List.range clips.length).map Int.ofNat) := by
  unfold GlobalDense
  rw [List.filter_eq_self.mpr (fun c hc => by simp [h c hc])]

/-- The manual single-insert invariant. -/
def ManualInv (w : World) : Prop :=
  Healthy w ∧ (w.state.clips.map (fun c => c.path)).Nodup ∧
  (∀ c ∈ w.state.clips, c.deleted = false) ∧ GlobalDense w.state.clips

/-- The fold of single manual inserts keeps the invariant, keeps the
files fixed, and leaves the most recent insert at the tail with global
position 0. -/
theorem manual_fold_go :
    ∀ (inserts : List (String × Option String)) (w : World),
    ManualInv w →
    (∀ pr ∈ inserts, pr.1 ∈ w.files ∧ pr.1 ≠ "add") →
    (∀ pr ∈ inserts, ∀ c ∈ w.state.clips, c.path ≠ pr.1) →
    (inserts.map Prod.fst).Nodup →
    ManualInv (inserts.foldl (fun w pr => addClips w [{ path := pr.1 }] pr.2 .Manual) w) ∧
    (inserts.foldl (fun w pr => addClips w [{ path := pr.1 }] pr.2 .Manual) w).files = w.files ∧
    (∀ pr, inserts.getLast? = some pr →
      ∃ cl, (inserts.foldl (fun w pr => addClips w [{ path := pr.1 }] pr.2 .Manual)
          w).state.clips.getLast? = some cl ∧ cl.path = pr.1 ∧ cl.globalOrderPosition = 0) := by
  intro inserts
  induction inserts with
  | nil =>
    intro w hinv _ _ _
    refine ⟨hinv, rfl, ?_⟩
    intro pr hpr
    simp at hpr
  | cons pr rest ih =>
    intro w hinv hmem hfresh hnd
    obtain ⟨hhealthy, hndp, hdel, hdense⟩ := hinv
    obtain ⟨hclips1, hfiles1⟩ := addClips_manual_single w pr.1 pr.2 hhealthy hndp
      (hmem pr (List.mem_cons_self pr rest)).2
      (fun c hc => hfresh pr (List.mem_cons_self pr rest) c hc)
    set w1 := addClips w [{ path := pr.1 }] pr.2 .Manual with hw1
    have hpaths1 : w1.state.clips.map (fun c => c.path) =
        w.state.clips.map (fun c => c.path) ++ [pr.1] := by
      rw [hclips1, List.map_append, List.map_map]
      congr 1
      apply List.map_congr_left
      intro c _
      simp [Function.comp, manualBump_path]
    have hinv1 : ManualInv w1 := by
      refine ⟨?_, ?_, ?_, ?_⟩
      · intro c hc
        rw [hclips1] at hc
        rcases List.mem_append.mp hc with hc | hc
        · obtain ⟨y, hy, rfl⟩ := List.mem_map.mp hc
          rw [manualBump_path, hfiles1]
          exact hhealthy y hy
        · rw [List.mem_singleton.mp hc, hfiles1]
          exact ⟨by
            have := (hmem pr (List.mem_cons_self pr rest)).1
            simpa [fileExists] using this,
            (hmem pr (List.mem_cons_self pr rest)).2⟩
      · rw [hpaths1]
        rw [List.nodup_append]
        refine ⟨hndp, List.nodup_singleton _, ?_⟩
        intro a ha hb
        rw [List.mem_singleton.mp hb] at ha
        obtain ⟨c, hc, hcp⟩ := List.mem_map.mp ha
        exact hfresh pr (List.mem_cons_self pr rest) c hc hcp
      · intro c hc
        rw [hclips1] at hc
        rcases List.mem_append.mp hc with hc | hc
        · obtain ⟨y, hy, rfl⟩ := List.mem_map.mp hc
          rw [manualBump_deleted]
          exact hdel y hy
        · rw [List.mem_singleton.mp hc]
          rfl
      · have hdel1 : ∀ c ∈ w1.state.clips, c.deleted = false := by
          intro c hc
          rw [hclips1] at hc
          rcases List.mem_append.mp hc with hc | hc
          · obtain ⟨y, hy, rfl⟩ := List.mem_map.mp hc
            rw [manualBump_deleted]
            exact hdel y hy
          · rw [List.mem_singleton.mp hc]
            rfl
        rw [globalDense_of_all _ hdel1, hclips1]
        have hlen : (w.state.clips.map (manualBump pr.2) ++ [manualNewClip pr.1 pr.2]).length
            = w.state.clips.length + 1 := by
          simp
        rw [hlen, List.map_append, List.map_map]
        have hpos : w.state.clips.map ((fun c => c.globalOrderPosition) ∘ manualBump pr.2) =
            (w.state.clips.map (fun c => c.globalOrderPosition)).map (fun z => z + 1) := by
          rw [List.map_map]
          apply List.map_congr_left
          intro c _
          simp [Function.comp, manualBump_global]
        rw [hpos]
        have h0 : [manualNewClip pr.1 pr.2].map (fun c => c.globalOrderPosition) = [(0 : Int)] := by
          rfl
        rw [h0]
        exact dense_cons_shift _ _ ((globalDense_of_all _ hdel).mp hdense)
    have hmem1 : ∀ q ∈ rest, q.1 ∈ w1.files ∧ q.1 ≠ "add" := by
      intro q hq
      rw [hfiles1]
      exact hmem q (List.mem_cons_of_mem _ hq)
    have hfresh1 : ∀ q ∈ rest, ∀ c ∈ w1.state.clips, c.path ≠ q.1 := by
      intro q hq c hc
      rw [hclips1] at hc
      rcases List.mem_append.mp hc with hc | hc
      · obtain ⟨y, hy, rfl⟩ := List.mem_map.mp hc
        rw [manualBump_path]
        exact hfresh q (List.mem_cons_of_mem _ hq) y hy
      · rw [List.mem_singleton.mp hc]
        show pr.1 ≠ q.1
        intro he
        have : pr.1 ∈ rest.map Prod.fst := by
          rw [he]
          exact List.mem_map_of_mem _ hq
        simp only [List.map_cons, List.nodup_cons] at hnd
        exact hnd.1 this
    have hndr : (rest.map Prod.fst).Nodup := by
      simp only [List.map_cons, List.nodup_cons] at hnd
      exact hnd.2
    obtain ⟨ihinv, ihfiles, ihlast⟩ := ih w1 hinv1 hmem1 hfresh1 hndr
    refine ⟨ihinv, by rw [List.foldl_cons, ← hw1, ihfiles, hfiles1], ?_⟩
    intro q hq
    cases rest with
    | nil =>
      have hq2 : q = pr := by
        have := hq
        simp at this
        exact this.symm
      subst hq2
      refine ⟨manualNewClip q.1 q.2, ?_, rfl, rfl⟩
      show w1.state.clips.getLast? = some (manualNewClip q.1 q.2)
      rw [hclips1]
      exact List.getLast?_concat _
    | cons r rest2 =>
      have hq2 : (r :: rest2).getLast? = some q := by
        simpa [List.getLast?_cons_cons] using hq
      exact ihlast q hq2

/-- C1, amended: over any sequence of single-clip manual inserts with
fresh real paths whose files exist, starting from an empty ledger, the
globalOrderPosition values over the (all non-deleted) clips always form a
dense permutation of 0..N-1 and the most recently inserted clip sits at
the tail with position 0. -/
theorem claim_C1_amended (files : List String) (inserts : List (String × Option String))
    (hnd : (inserts.map Prod.fst).Nodup)
    (hmem : ∀ pr ∈ inserts, pr.1 ∈ files ∧ pr.1 ≠ "add") :
    GlobalDense ((inserts.foldl (fun w pr => addClips w [{ path := pr.1 }] pr.2 .Manual)
        (mkWorld [] files)).state.clips) ∧
    (∀ pr, inserts.getLast? = some pr →
      ∃ cl, (inserts.foldl (fun w pr => addClips w [{ path := pr.1 }] pr.2 .Manual)
          (mkWorld [] files)).state.clips.getLast? = some cl ∧
        cl.path = pr.1 ∧ cl.globalOrderPosition = 0) := by
  have hinv : ManualInv (mkWorld [] files) := by
    refine ⟨?_, ?_, ?_, ?_⟩
    · intro c hc
      simp [mkWorld, defaultStateWith] at hc
    · simp [mkWorld, defaultStateWith]
    · intro c hc
      simp [mkWorld, defaultStateWith] at hc
    · show GlobalDense []
      decide
  have hmem2 : ∀ pr ∈ inserts, pr.1 ∈ (mkWorld [] files).files ∧ pr.1 ≠ "add" := hmem
  have hfresh : ∀ pr ∈ inserts, ∀ c ∈ (mkWorld [] files).state.clips, c.path ≠ pr.1 := by
    intro pr _ c hc
    simp [mkWorld, defaultStateWith] at hc
  obtain ⟨⟨_, _, _, hdense⟩, _, hlast⟩ := manual_fold_go inserts (mkWorld [] files) hinv hmem2 hfresh hnd
  exact ⟨hdense, hlast⟩

/-- C1 witness at a concrete sequence: inserting a (globally) then b
(under stream S) yields dense positions with b at position 0. -/
theorem claim_C1_witness :
    GlobalDense (([(("a" : String), (none : Option String)), ("b", some "S")].foldl
        (fun w pr => addClips w [{ path := pr.1 }] pr.2 .Manual)
        (mkWorld [] ["a", "b"])).state.clips) ∧
    (([(("a" : String), (none : Option String)), ("b", some "S")].foldl
        (fun w pr => addClips w [{ path := pr.1 }] pr.2 .Manual)
        (mkWorld [] ["a", "b"])).state.clips.getLast?.map
          (fun c => (c.path, c.globalOrderPosition)) = some ("b", 0)) := by
  have h := claim_C1_amended ["a", "b"] [("a", none), ("b", some "S")]
    (by decide) (by decide)
  obtain ⟨cl, hlast, hpath, hglob⟩ := h.2 ("b", some "S") (by decide)
  refine ⟨h.1, ?_⟩
  rw [hlast]
  simp [hpath, hglob]

/-- Every record produced by the replay-buffer batch lies strictly above
the starting counts in both orderings. -/
theorem rbExpected_bounds (s : String) :
    ∀ (l : List NewClipInput) (idx n m : Nat),
    ∀ c ∈ rbExpected s idx n m l,
      (n : Int) < c.globalOrderPosition ∧ (m : Int) < orderKey c s := by
  intro l
  induction l with
  | nil =>
    intro idx n m c hc
    simp [rbExpected] at hc
  | cons d rest ih =>
    intro idx n m c hc
    rw [rbExpected] at hc
    rcases List.mem_cons.mp hc with rfl | hc
    · constructor
      · show (n : Int) < (idx : Int) + n + 1
        omega
      · show (m : Int) < orderKey (rbClip d s ((idx : Int) + n + 1) ((idx : Int) + m + 1)) s
        have : orderKey (rbClip d s ((idx : Int) + n + 1) ((idx : Int) + m + 1)) s
            = (idx : Int) + m + 1 := by
          simp [orderKey, rbClip, alookup]
        rw [this]
        omega
    · obtain ⟨h1, h2⟩ := ih (idx + 1) (n + 1) (m + 1) c hc
      constructor
      · have : ((n : Int) : Int) < ((n + 1 : Nat) : Int) := by exact_mod_cast Nat.lt_succ_self n
        exact lt_trans this h1
      · have : ((m : Int) : Int) < ((m + 1 : Nat) : Int) := by exact_mod_cast Nat.lt_succ_self m
        exact lt_trans this h2

/-- In a dense ledger every live global position is below the count. -/
theorem dense_global_lt (clips : List Clip) (hdel : ∀ c ∈ clips, c.deleted = false)
    (hdense : GlobalDense clips) :
    ∀ c ∈ clips, c.globalOrderPosition < (clips.length : Int) := by
  rw [globalDense_of_all clips hdel] at hdense
  intro c hc
  have hmem : c.globalOrderPosition ∈ clips.map (fun c => c.globalOrderPosition) :=
    List.mem_map_of_mem _ hc
  have hmem2 := hdense.mem_iff.mp hmem
  obtain ⟨k, hk, hke⟩ := List.mem_map.mp hmem2
  have hke2 : (k : Int) = c.globalOrderPosition := hke
  have hk2 := List.mem_range.mp hk
  omega

/-- In a per-stream dense ledger every per-stream position is below the
count of associated clips. -/
theorem dense_stream_lt (clips : List Clip) (s : String)
    (hsd : StreamDense clips s) :
    ∀ c ∈ clips.filter (fun c => hasStream c s),
      orderKey c s < ((clips.filter (fun c => hasStream c s)).length : Int) := by
  unfold StreamDense at hsd
  intro c hc
  have hmem : orderKey c s ∈ (clips.filter (fun c => hasStream c s)).map (fun c => orderKey c s) :=
    List.mem_map_of_mem _ hc
  have hmem2 := hsd.mem_iff.mp hmem
  obtain ⟨k, hk, hke⟩ := List.mem_map.mp hmem2
  have hke2 : (k : Int) = orderKey c s := hke
  have hk2 := List.mem_range.mp hk
  omega

/-- The replay-buffer forEach appends exactly the expected records. -/
theorem addClipsGo_rb (s : String) :
    ∀ (l : List NewClipInput) (idx : Nat) (w : World),
    Healthy w →
    (∀ d ∈ l, d.path ∈ w.files ∧ d.path ≠ "add") →
    (∀ d ∈ l, ∀ c ∈ w.state.clips, c.path ≠ d.path) →
    (l.map (fun d => d.path)).Nodup →
    (addClipsGo (some s) .ReplayBuffer idx w l).state.clips =
      w.state.clips ++ rbExpected s idx w.state.clips.length
        (w.state.clips.filter (fun c => hasStream c s)).length l ∧
    (addClipsGo (some s) .ReplayBuffer idx w l).files = w.files := by
  intro l
  induction l with
  | nil =>
    intro idx w _ _ _ _
    exact ⟨by rw [rbExpected, List.append_nil]; rfl, rfl⟩
  | cons d rest ih =>
    intro idx w hw hl hfresh hndl
    have hdmem := hl d (List.mem_cons_self d rest)
    have hdfresh := hfresh d (List.mem_cons_self d rest)
    have hfind : w.state.clips.find? (fun c => c.path = d.path) = none := by
      rw [List.find?_eq_none]
      intro c hc
      simp only [decide_eq_true_eq]
      exact hdfresh c hc
    have hadd := ADD_CLIP_fresh w.state
      (rbClip d s ((idx : Int) + w.state.clips.length + 1)
        ((idx : Int) + (w.state.clips.filter (fun c => hasStream c s)).length + 1))
      (fun c hc => hdfresh c hc)
    have hstepc : (addClipsStep w d idx (some s) .ReplayBuffer).state.clips =
        w.state.clips ++ [rbClip d s ((idx : Int) + w.state.clips.length + 1)
          ((idx : Int) + (w.state.clips.filter (fun c => hasStream c s)).length + 1)] := by
      unfold addClipsStep
      simp only [getClips_pure_some w w.state.clips s hw, getClips_pure_none w w.state.clips hw]
      simp only [hfind]
      simp only [rbClip] at hadd
      simp only [hadd]
      rfl
    have hstepf : (addClipsStep w d idx (some s) .ReplayBuffer).files = w.files := by
      unfold addClipsStep
      simp only [getClips_pure_some w w.state.clips s hw, getClips_pure_none w w.state.clips hw]
      simp only [hfind]
    set w1 := addClipsStep w d idx (some s) .ReplayBuffer with hw1
    have hnew_has : hasStream (rbClip d s ((idx : Int) + w.state.clips.length + 1)
        ((idx : Int) + (w.state.clips.filter (fun c => hasStream c s)).length + 1)) s = true := by
      simp [hasStream, rbClip, alookup]
    have hw1h : Healthy w1 := by
      intro c hc
      rw [hstepc] at hc
      rcases List.mem_append.mp hc with hc | hc
      · rw [hstepf]
        exact hw c hc
      · rw [List.mem_singleton.mp hc, hstepf]
        refine ⟨by simpa [fileExists] using hdmem.1, hdmem.2⟩
    have hl1 : ∀ q ∈ rest, q.path ∈ w1.files ∧ q.path ≠ "add" := by
      intro q hq
      rw [hstepf]
      exact hl q (List.mem_cons_of_mem _ hq)
    have hfresh1 : ∀ q ∈ rest, ∀ c ∈ w1.state.clips, c.path ≠ q.path := by
      intro q hq c hc
      rw [hstepc] at hc
      rcases List.mem_append.mp hc with hc | hc
      · exact hfresh q (List.mem_cons_of_mem _ hq) c hc
      · rw [List.mem_singleton.mp hc]
        show d.path ≠ q.path
        intro he
        simp only [List.map_cons, List.nodup_cons] at hndl
        exact hndl.1 (he ▸ List.mem_map_of_mem _ hq)
    have hndr : (rest.map (fun d => d.path)).Nodup := by
      simp only [List.map_cons, List.nodup_cons] at hndl
      exact hndl.2
    obtain ⟨ihc, ihf⟩ := ih (idx + 1) w1 hw1h hl1 hfresh1 hndr
    have hlen1 : w1.state.clips.length = w.state.clips.length + 1 := by
      rw [hstepc]
      simp
    have hflen1 : (w1.state.clips.filter (fun c => hasStream c s)).length =
        (w.state.clips.filter (fun c => hasStream c s)).length + 1 := by
      rw [hstepc, List.filter_append]
      simp [hnew_has]
    constructor
    · show (addClipsGo (some s) .ReplayBuffer (idx + 1) w1 rest).state.clips = _
      rw [ihc, hlen1, hflen1, hstepc, rbExpected, List.append_assoc]
      rfl
    · show (addClipsGo (some s) .ReplayBuffer (idx + 1) w1 rest).files = w.files
      rw [ihf, hstepf]

/-- C3, amended: on a ledger with dense global and per-stream positions,
a replay-buffer batch under stream S appends records whose positions are
N+2i+1 globally and M+2i+1 per stream - strictly above every existing
position, but skipping a slot, so the result is not dense. -/
theorem claim_C3_amended (w : World) (s : String) (l : List NewClipInput)
    (hw : Healthy w)
    (hl : ∀ d ∈ l, d.path ∈ w.files ∧ d.path ≠ "add")
    (hfresh : ∀ d ∈ l, ∀ c ∈ w.state.clips, c.path ≠ d.path)
    (hndl : (l.map (fun d => d.path)).Nodup)
    (hdel : ∀ c ∈ w.state.clips, c.deleted = false)
    (hdense : GlobalDense w.state.clips)
    (hsdense : StreamDense w.state.clips s) :
    (addClips w l (some s) .ReplayBuffer).state.clips =
      w.state.clips ++ rbExpected s 0 w.state.clips.length
        (w.state.clips.filter (fun c => hasStream c s)).length l ∧
    (∀ cNew ∈ rbExpected s 0 w.state.clips.length
        (w.state.clips.filter (fun c => hasStream c s)).length l,
      (∀ cOld ∈ w.state.clips, cOld.globalOrderPosition < cNew.globalOrderPosition) ∧
      (∀ cOld ∈ w.state.clips.filter (fun c => hasStream c s),
        orderKey cOld s < orderKey cNew s)) := by
  obtain ⟨hc, _⟩ := addClipsGo_rb s l 0 w hw hl hfresh hndl
  refine ⟨hc, ?_⟩
  intro cNew hNew
  obtain ⟨hg, ho⟩ := rbExpected_bounds s l 0 w.state.clips.length
    (w.state.clips.filter (fun c => hasStream c s)).length cNew hNew
  constructor
  · intro cOld hOld
    exact lt_trans (dense_global_lt w.state.clips hdel hdense cOld hOld) hg
  · intro cOld hOld
    exact lt_trans (dense_stream_lt w.state.clips s hsdense cOld hOld) ho

/-- C3 witness: inserting the two replay-buffer clips into the dense
one-clip world appends the predicted records, all strictly above the
existing positions. -/
theorem claim_C3_witness :
    (addClips rbBaseWorld rbBatch (some "S") .ReplayBuffer).state.clips =
      rbBaseWorld.state.clips ++ rbExpected "S" 0 rbBaseWorld.state.clips.length
        (rbBaseWorld.state.clips.filter (fun c => hasStream c "S")).length rbBatch ∧
    ((rbExpected "S" 0 rbBaseWorld.state.clips.length
        (rbBaseWorld.state.clips.filter (fun c => hasStream c "S")).length rbBatch).all
      (fun cNew => decide (rbBaseClip.globalOrderPosition < cNew.globalOrderPosition)
        && decide (orderKey rbBaseClip "S" < orderKey cNew "S"))) = true := by
  have h := claim_C3_amended rbBaseWorld "S" rbBatch
    (by decide) (by decide) (by decide) (by decide) (by decide) (by decide) (by decide)
  refine ⟨h.1, ?_⟩
  rw [List.all_eq_true]
  intro cNew hNew
  obtain ⟨hg, ho⟩ := h.2 cNew hNew
  have hbase : rbBaseClip ∈ rbBaseWorld.state.clips := by decide
  have hbasef : rbBaseClip ∈ rbBaseWorld.state.clips.filter (fun c => hasStream c "S") := by
    decide
  rw [Bool.and_eq_true, decide_eq_true_eq, decide_eq_true_eq]
  exact ⟨hg rbBaseClip hbase, ho rbBaseClip hbasef⟩

theorem fileExists_iff (files : List String) (p : String) :
    fileExists files p = true ↔ p ∈ files := by
  simp [fileExists]

/-- The stream pruning pass touches only the stream dictionary. -/
theorem pruneFold_frame :
    ∀ (ids : List String) (w : World), ∃ d,
      ids.foldl (fun w id =>
        if w.state.clips.any (fun c => hasStream c id) then w
        else { w with state := REMOVE_HIGHLIGHTED_STREAM w.state id }) w =
      { w with state := { w.state with highlightedStreamsDictionary := d } } := by
  intro ids
  induction ids with
  | nil =>
    intro w
    exact ⟨w.state.highlightedStreamsDictionary, rfl⟩
  | cons i t ih =>
    intro w
    rw [List.foldl_cons]
    by_cases hcond : w.state.clips.any (fun c => hasStream c i) = true
    · rw [if_pos hcond]
      exact ih w
    · rw [if_neg hcond]
      obtain ⟨d, h⟩ := ih { w with state := REMOVE_HIGHLIGHTED_STREAM w.state i }
      exact ⟨d, by rw [h]; rfl⟩

theorem pruneStreamsFor_frame (w : World) (clip : Clip) (sid : Option String) :
    ∃ d, pruneStreamsFor w clip sid =
      { w with state := { w.state with highlightedStreamsDictionary := d } } := by
  unfold pruneStreamsFor
  split
  · exact pruneFold_frame _ w
  · exact ⟨w.state.highlightedStreamsDictionary, rfl⟩

/-- What the absent-file removal does: the record of that path is dropped
from the clip list, the filesystem only shrinks, and the exporting flag,
the oracles and the rest of the settings survive. -/
theorem removeClipMissing_spec (w : World) (p : String) (sid : Option String) :
    (removeClipMissing w p sid).state.clips = w.state.clips.filter (fun c => c.path ≠ p) ∧
    (∀ f ∈ (removeClipMissing w p sid).files, f ∈ w.files) ∧
    (removeClipMissing w p sid).state.exportInfo.exporting = w.state.exportInfo.exporting ∧
    (removeClipMissing w p sid).supported = w.supported := by
  cases hfind : w.state.clips.find? (fun c => c.path = p) with
  | none =>
    have hres : removeClipMissing w p sid = w := by
      unfold removeClipMissing
      rw [hfind]
    have hnone : ∀ c ∈ w.state.clips, c.path ≠ p := by
      intro c hc
      have := List.find?_eq_none.mp hfind c hc
      simpa using this
    rw [hres]
    refine ⟨?_, fun f hf => hf, rfl, rfl⟩
    rw [List.filter_eq_self.mpr (fun c hc => by simpa using hnone c hc)]
  | some clip =>
    cases hscrub : clip.scrubSprite with
    | none =>
      have hres : removeClipMissing w p sid = pruneStreamsFor
          { w with
              state := REMOVE_CLIP w.state p
              renderingClips := w.renderingClips.filter (fun q => q ≠ p) } clip sid := by
        unfold removeClipMissing
        rw [hfind]
        show pruneStreamsFor _ clip sid = _
        rw [show removeScrubFileW { w with state := REMOVE_CLIP w.state p } clip.scrubSprite
            = { w with state := REMOVE_CLIP w.state p } from by rw [hscrub]; rfl]
      obtain ⟨d, hp⟩ := pruneStreamsFor_frame
        { w with
            state := REMOVE_CLIP w.state p
            renderingClips := w.renderingClips.filter (fun q => q ≠ p) } clip sid
      rw [hres, hp]
      exact ⟨rfl, fun f hf => hf, rfl, rfl⟩
    | some sp =>
      have hres : removeClipMissing w p sid = pruneStreamsFor
          { w with
              state := REMOVE_CLIP w.state p
              files := w.files.filter (fun f => f ≠ sp)
              renderingClips := w.renderingClips.filter (fun q => q ≠ p) } clip sid := by
        unfold removeClipMissing
        rw [hfind]
        show pruneStreamsFor _ clip sid = _
        rw [show removeScrubFileW { w with state := REMOVE_CLIP w.state p } clip.scrubSprite
            = { { w with state := REMOVE_CLIP w.state p } with
                files := ({ w with state := REMOVE_CLIP w.state p } : World).files.filter
                  (fun f => f ≠ sp) } from by rw [hscrub]; rfl]
      obtain ⟨d, hp⟩ := pruneStreamsFor_frame
        { w with
            state := REMOVE_CLIP w.state p
            files := w.files.filter (fun f => f ≠ sp)
            renderingClips := w.renderingClips.filter (fun q => q ≠ p) } clip sid
      rw [hres, hp]
      refine ⟨rfl, ?_, rfl, rfl⟩
      intro f hf
      exact List.mem_of_mem_filter hf

/-- Invariants of the self-healing query: the filesystem only shrinks,
path absence is preserved, every returned clip existed on disk at call
time, and every visited clip with a real path and a missing file is gone
from the state at return. -/
theorem getClipsGo_spec (sid : Option String) :
    ∀ (cs : List Clip) (w : World),
    (∀ f ∈ (getClipsGo sid w cs).2.files, f ∈ w.files) ∧
    (∀ p, (∀ c ∈ w.state.clips, c.path ≠ p) →
      ∀ c ∈ (getClipsGo sid w cs).2.state.clips, c.path ≠ p) ∧
    (∀ c ∈ (getClipsGo sid w cs).1, fileExists w.files c.path = true) ∧
    (∀ c ∈ cs, fileExists w.files c.path = false → c.path ≠ "add" →
      ∀ x ∈ (getClipsGo sid w cs).2.state.clips, x.path ≠ c.path) := by
  intro cs
  induction cs with
  | nil =>
    intro w
    refine ⟨fun f hf => hf, fun p hp c hc => hp c hc, ?_, ?_⟩
    · intro c hc
      simp [getClipsGo] at hc
    · intro c hc
      simp at hc
  | cons c t ih =>
    intro w
    by_cases hadd : c.path = "add"
    · have hres : getClipsGo sid w (c :: t) = getClipsGo sid w t := by
        simp only [getClipsGo, if_pos hadd]
      obtain ⟨ih1, ih2, ih3, ih4⟩ := ih w
      rw [hres]
      refine ⟨ih1, ih2, ih3, ?_⟩
      intro d hd habs hd2
      rcases List.mem_cons.mp hd with rfl | hd
      · exact absurd hadd hd2
      · exact ih4 d hd habs hd2
    · by_cases hex : fileExists w.files c.path = true
      · have hcases : getClipsGo sid w (c :: t) = getClipsGo sid w t ∨
            getClipsGo sid w (c :: t) =
              (c :: (getClipsGo sid w t).1, (getClipsGo sid w t).2) := by
          simp only [getClipsGo, if_neg hadd, hex, if_true]
          cases sid with
          | none => right; rfl
          | some s =>
            by_cases hs : hasStream c s
            · right; simp [hs]
            · left; simp [hs]
        obtain ⟨ih1, ih2, ih3, ih4⟩ := ih w
        have htail : ∀ d ∈ c :: t, fileExists w.files d.path = false → d.path ≠ "add" →
            ∀ x ∈ (getClipsGo sid w t).2.state.clips, x.path ≠ d.path := by
          intro d hd habs hd2
          rcases List.mem_cons.mp hd with rfl | hd
          · rw [hex] at habs
            exact absurd habs (by simp)
          · exact ih4 d hd habs hd2
        rcases hcases with hres | hres
        · rw [hres]
          exact ⟨ih1, ih2, ih3, htail⟩
        · rw [hres]
          refine ⟨ih1, ih2, ?_, htail⟩
          intro d hd
          rcases List.mem_cons.mp hd with rfl | hd
          · exact hex
          · exact ih3 d hd
      · have hex2 : fileExists w.files c.path = false := by
          revert hex
          cases fileExists w.files c.path <;> simp
        have hres : getClipsGo sid w (c :: t) =
            getClipsGo sid (removeClipMissing w c.path sid) t := by
          simp only [getClipsGo, if_neg hadd, hex2, Bool.false_eq_true, if_false]
        obtain ⟨hm1, hm2, hm3, hm4⟩ := removeClipMissing_spec w c.path sid
        obtain ⟨ih1, ih2, ih3, ih4⟩ := ih (removeClipMissing w c.path sid)
        rw [hres]
        have habs : ∀ p, (∀ x ∈ w.state.clips, x.path ≠ p) →
            ∀ x ∈ (removeClipMissing w c.path sid).state.clips, x.path ≠ p := by
          intro p hp x hx
          rw [hm1] at hx
          exact hp x (List.mem_of_mem_filter hx)
        refine ⟨?_, ?_, ?_, ?_⟩
        · intro f hf
          exact hm2 f (ih1 f hf)
        · intro p hp x hx
          exact ih2 p (habs p hp) x hx
        · intro d hd
          have := ih3 d hd
          rw [fileExists_iff] at this ⊢
          exact hm2 d.path this
        · intro d hd hdabs hd2
          rcases List.mem_cons.mp hd with rfl | hd
          · have hgone : ∀ x ∈ (removeClipMissing w d.path sid).state.clips, x.path ≠ d.path := by
              intro x hx
              rw [hm1] at hx
              have := List.of_mem_filter hx
              simpa using this
            intro x hx
            exact ih2 d.path hgone x hx
          · have hdabs2 : fileExists (removeClipMissing w c.path sid).files d.path = false := by
              rw [Bool.eq_false_iff]
              intro hcon
              rw [fileExists_iff] at hcon
              exact absurd ((fileExists_iff w.files d.path).mpr (hm2 d.path hcon))
                (by rw [hdabs]; simp)
            exact ih4 d hd hdabs2 hd2

/-- C7, amended: the query never returns a clip whose backing file was
absent, and every clip of the queried snapshot with a missing file -
except a record carrying the sentinel path add, which is filtered before
the existence check - has been removed from the state by the time the
call returns. -/
theorem claim_C7_amended (w : World) (sid : Option String) :
    (∀ c ∈ (getClips w w.state.clips sid).1, fileExists w.files c.path = true) ∧
    (∀ c ∈ w.state.clips, fileExists w.files c.path = false → c.path ≠ "add" →
      ∀ x ∈ (getClips w w.state.clips sid).2.state.clips, x.path ≠ c.path) := by
  obtain ⟨_, _, h3, h4⟩ := getClipsGo_spec sid w.state.clips w
  exact ⟨h3, h4⟩

/-- C7 witness: in the world where good.mp4 exists and bad.mp4 is gone,
the query returns only existing files and the bad record is no longer in
the state. -/
theorem claim_C7_witness :
    ((getClips healWorld healWorld.state.clips none).1.all
      (fun c => fileExists healWorld.files c.path) = true) ∧
    ((getClips healWorld healWorld.state.clips none).2.state.clips.all
      (fun x => x.path ≠ "bad.mp4") = true) := by
  have h := claim_C7_amended healWorld none
  constructor
  · rw [List.all_eq_true]
    intro c hc
    exact h.1 c hc
  · rw [List.all_eq_true]
    intro x hx
    have := h.2 badClip (by decide) (by decide) (by decide) x hx
    simpa using this

theorem removeScrubFileW_state (w : World) (o : Option String) :
    (removeScrubFileW w o).state = w.state := by
  cases o <;> rfl

theorem getClipsGo_exporting (sid : Option String) :
    ∀ (cs : List Clip) (w : World),
    (getClipsGo sid w cs).2.state.exportInfo.exporting = w.state.exportInfo.exporting := by
  intro cs
  induction cs with
  | nil => intro w; rfl
  | cons c t ih =>
    intro w
    by_cases hadd : c.path = "add"
    · rw [show getClipsGo sid w (c :: t) = getClipsGo sid w t from by
        simp only [getClipsGo, if_pos hadd]]
      exact ih w
    · by_cases hex : fileExists w.files c.path = true
      · have hcases : (getClipsGo sid w (c :: t)).2 = (getClipsGo sid w t).2 := by
          simp only [getClipsGo, if_neg hadd, hex, if_true]
          cases sid with
          | none => rfl
          | some s =>
            by_cases hs : hasStream c s
            · simp [hs]
            · simp [hs]
        rw [hcases]
        exact ih w
      · have hex2 : fileExists w.files c.path = false := by
          revert hex
          cases fileExists w.files c.path <;> simp
        rw [show getClipsGo sid w (c :: t) =
            getClipsGo sid (removeClipMissing w c.path sid) t from by
          simp only [getClipsGo, if_neg hadd, hex2, Bool.false_eq_true, if_false]]
        rw [ih (removeClipMissing w c.path sid)]
        exact (removeClipMissing_spec w c.path sid).2.2.1

theorem removeClipUnlink_exporting (w : World) (p : String) (sid : Option String) (del : Bool) :
    (removeClipUnlink w p sid del).state.exportInfo.exporting =
      w.state.exportInfo.exporting := by
  unfold removeClipUnlink
  split
  · split
    · rw [getClips, getClipsGo_exporting]
    · rfl
  · rfl

theorem removeClipFull_exporting (w : World) (p : String) (clip : Clip)
    (sid : Option String) (del : Bool) :
    (removeClipFull w p clip sid del).state.exportInfo.exporting =
      w.state.exportInfo.exporting := by
  unfold removeClipFull
  rw [removeClipUnlink_exporting]
  show (removeScrubFileW { w with state := REMOVE_CLIP w.state p }
    clip.scrubSprite).state.exportInfo.exporting = _
  rw [removeScrubFileW_state]
  rfl

theorem removeClipBranch_exporting (w : World) (p : String) (clip : Clip)
    (sid : Option String) (del : Bool) :
    (removeClipBranch w p clip sid del).state.exportInfo.exporting =
      w.state.exportInfo.exporting := by
  unfold removeClipBranch
  split
  · split
    · rfl
    · rw [removeClipFull_exporting]
  · rw [removeClipFull_exporting]

theorem removeClip_exporting (w : World) (p : String) (sid : Option String) (del : Bool) :
    (removeClip w p sid del).state.exportInfo.exporting = w.state.exportInfo.exporting := by
  unfold removeClip
  cases hfind : w.state.clips.find? (fun c => c.path = p) with
  | none => rfl
  | some clip =>
    show (pruneStreamsFor (removeClipBranch w p clip sid del) clip sid).state.exportInfo.exporting = _
    obtain ⟨d, hp⟩ := pruneStreamsFor_frame (removeClipBranch w p clip sid del) clip sid
    rw [hp]
    show (removeClipBranch w p clip sid del).state.exportInfo.exporting = _
    rw [removeClipBranch_exporting]

theorem loadClipsScan_exporting (sid : Option String) :
    ∀ (l : List Clip) (w : World),
    (loadClipsScan sid w l).1.state.exportInfo.exporting =
      w.state.exportInfo.exporting := by
  intro l
  induction l with
  | nil => intro w; rfl
  | cons c rest ih =>
    intro w
    by_cases habs : fileExists w.files c.path = false
    · rw [show loadClipsScan sid w (c :: rest) = (removeClip w c.path sid true, true) from by
        simp only [loadClipsScan, habs, if_true]]
      show (removeClip w c.path sid true).state.exportInfo.exporting = _
      rw [removeClip_exporting]
    · have hex : fileExists w.files c.path = true := by
        revert habs
        cases fileExists w.files c.path <;> simp
      simp only [loadClipsScan, hex, Bool.true_eq_false, if_false, ih]
      have hren : ∀ (u : World), (if u.renderingClips.contains c.path then u
          else { u with renderingClips := u.renderingClips ++ [c.path] }).state = u.state := by
        intro u
        split <;> rfl
      rw [hren]
      split
      · rfl
      · show (SET_ERROR (removeClip w c.path sid true).state
          unsupportedFormatError).exportInfo.exporting = _
        show (removeClip w c.path sid true).state.exportInfo.exporting = _
        rw [removeClip_exporting]

theorem loadClips_fold_exporting (l : List Clip) :
    ∀ (w : World),
    (l.foldl (fun w c =>
      { w with state := UPDATE_CLIP w.state {
            path := c.path
            loaded := some true
            scrubSprite := some (w.probeScrub c.path)
            duration := some (w.probeDuration c.path)
            deleted := some (w.probeDeleted c.path) } }) w).state.exportInfo.exporting =
      w.state.exportInfo.exporting := by
  induction l with
  | nil => intro w; rfl
  | cons c t ih =>
    intro w
    rw [List.foldl_cons, ih]
    rfl

theorem loadClips_exporting (w : World) (sid : Option String) :
    (loadClips w sid).state.exportInfo.exporting = w.state.exportInfo.exporting := by
  unfold loadClips
  simp only []
  split
  · rw [loadClipsScan_exporting, getClips, getClipsGo_exporting]
  · rw [loadClips_fold_exporting, loadClipsScan_exporting, getClips, getClipsGo_exporting]

/-- C8, amended: export invoked while exportInfo.exporting is already
true, or while the target clips are not all loaded after the load pass,
returns without dispatching a render job and leaves
exportInfo.exporting unchanged, so it remains false exactly when it was
false and stays true in the already-exporting case. -/
theorem claim_C8_amended (w : World) (preview : Bool) (sid : Option String)
    (orientation : String)
    (h : w.state.exportInfo.exporting = true ∨
      hasUnloadedClips (loadClips { w with renderingClips := [] } sid) sid = true) :
    (exportVideo w preview sid orientation).2 = false ∧
    (exportVideo w preview sid orientation).1.state.exportInfo.exporting =
      w.state.exportInfo.exporting := by
  unfold exportVideo
  simp only []
  have hexp : (loadClips { w with renderingClips := [] } sid).state.exportInfo.exporting =
      w.state.exportInfo.exporting := by
    rw [loadClips_exporting]
  by_cases hu : hasUnloadedClips (loadClips { w with renderingClips := [] } sid) sid = true
  · rw [if_pos hu]
    exact ⟨rfl, hexp⟩
  · have hex : (loadClips { w with renderingClips := [] } sid).state.exportInfo.exporting = true := by
      rcases h with h | h
      · rw [hexp]
        exact h
      · exact absurd h hu
    rw [if_neg hu, if_pos hex]
    exact ⟨rfl, hexp⟩

/-- C8 witness: on the already-exporting world the export call
dispatches nothing and exporting stays true. -/
theorem claim_C8_witness :
    ((exportingWorld.state.exportInfo.exporting = true ∨
      hasUnloadedClips (loadClips { exportingWorld with renderingClips := [] } none) none = true) ∧
    (exportVideo exportingWorld false none "horizontal").2 = false ∧
    (exportVideo exportingWorld false none "horizontal").1.state.exportInfo.exporting =
      exportingWorld.state.exportInfo.exporting) :=
  ⟨Or.inl (by decide), claim_C8_amended exportingWorld false none "horizontal" (Or.inl (by decide))⟩

theorem find_append_of_none {α} (p : α → Bool) :
    ∀ (l l2 : List α), l.find? p = none → (l ++ l2).find? p = l2.find? p := by
  intro l l2
  induction l with
  | nil => intro _; rfl
  | cons a t ih =>
    intro h
    rw [List.find?_cons] at h
    cases hpa : p a with
    | true => rw [hpa] at h; exact absurd h (by simp)
    | false =>
      rw [hpa] at h
      rw [List.cons_append, List.find?_cons, hpa]
      exact ih h

theorem getUploadInfo_set (s : IHighlighterState) (p : UploadPatch) :
    ∃ r, getUploadInfo (SET_UPLOAD_INFO s p).uploads p.platform = some r ∧
      ((∃ u, r = applyUploadPatch u p) ∨ r = newUploadInfo p) := by
  unfold SET_UPLOAD_INFO getUploadInfo
  by_cases hany : s.uploads.any (fun u => u.platform = p.platform) = true
  · rw [if_pos hany]
    simp only [List.find?_map]
    have hpred : ((fun u : IUploadInfo => decide (u.platform = p.platform)) ∘
        (fun u => if u.platform = p.platform then applyUploadPatch u p else u)) =
        (fun u : IUploadInfo => decide (u.platform = p.platform)) := by
      funext u
      by_cases hu : u.platform = p.platform
      · simp [hu, applyUploadPatch]
      · simp [hu]
    rw [hpred]
    obtain ⟨u, humem, hup⟩ := List.any_eq_true.mp hany
    have hsome : (s.uploads.find? (fun u => decide (u.platform = p.platform))).isSome := by
      rw [List.find?_isSome]
      exact ⟨u, humem, hup⟩
    obtain ⟨v, hv⟩ := Option.isSome_iff_exists.mp hsome
    have hfs := List.find?_some hv
    have hvp : v.platform = p.platform := of_decide_eq_true hfs
    refine ⟨applyUploadPatch v p, ?_, Or.inl ⟨v, rfl⟩⟩
    rw [hv]
    simp [hvp]
  · rw [if_neg hany]
    have hnone : s.uploads.find? (fun u => decide (u.platform = p.platform)) = none := by
      rw [List.find?_eq_none]
      intro x hx hcon
      exact hany (List.any_eq_true.mpr ⟨x, hx, hcon⟩)
    refine ⟨newUploadInfo p, ?_, Or.inr rfl⟩
    simp only []
    rw [find_append_of_none _ _ _ hnone]
    simp [newUploadInfo]

/-- C9, amended: with any active upload, uploadYoutube rejects at the
call boundary, while uploadStorage performs no single-flight check and
unconditionally runs, leaving the platform record with uploading false,
cancelRequested false and the videoId of its own outcome. -/
theorem claim_C9_amended (w : World) (lk : Bool) (oc : Option String)
    (p : EUploadPlatform) (oc2 : Option String)
    (h : w.state.uploads.any (fun u => u.uploading) = true) :
    uploadRejected (uploadYoutube w lk oc) = true ∧
    (getUploadInfo (uploadStorage w p oc2).state.uploads p).map
      (fun u => (u.uploading, u.cancelRequested, u.videoId)) = some (false, false, oc2) := by
  constructor
  · cases lk <;> cases hexp : w.state.exportInfo.exported <;>
      simp [uploadYoutube, uploadRejected, hexp, h]
  · have hlast : ∃ s, (uploadStorage w p oc2).state = SET_UPLOAD_INFO s
        { platform := p, uploading := some false, cancelRequested := some false,
          videoId := some oc2 } := by
      unfold uploadStorage
      exact ⟨_, rfl⟩
    obtain ⟨s0, hs0⟩ := hlast
    rw [hs0]
    obtain ⟨r, hr, hcases⟩ := getUploadInfo_set s0
      { platform := p, uploading := some false, cancelRequested := some false,
        videoId := some oc2 }
    have hr2 : getUploadInfo (SET_UPLOAD_INFO s0
        { platform := p, uploading := some false, cancelRequested := some false,
          videoId := some oc2 }).uploads p = some r := hr
    rw [hr2]
    rcases hcases with ⟨u, rfl⟩ | rfl
    · rfl
    · rfl

/-- C9 witness: in the world with an active crossclip upload, a YouTube
upload attempt is rejected while a videoeditor storage upload runs to
completion and records its own videoId. -/
theorem claim_C9_witness :
    activeUploadWorld.state.uploads.any (fun u => u.uploading) = true ∧
    uploadRejected (uploadYoutube activeUploadWorld true (some "vid")) = true ∧
    (getUploadInfo (uploadStorage activeUploadWorld .videoeditor
        (some "sid")).state.uploads .videoeditor).map
      (fun u => (u.uploading, u.cancelRequested, u.videoId)) = some (false, false, some "sid") :=
  ⟨by decide,
   (claim_C9_amended activeUploadWorld true (some "vid") .videoeditor (some "sid")
     (by decide)).1,
   (claim_C9_amended activeUploadWorld true (some "vid") .videoeditor (some "sid")
     (by decide)).2⟩

theorem findStream_upsert (s : IHighlighterState) (st : IHighlightedStream) :
    findStream (UPDATE_HIGHLIGHTED_STREAM s st) st.id = some st := by
  unfold findStream UPDATE_HIGHLIGHTED_STREAM
  by_cases hany : s.highlightedStreamsDictionary.any (fun x => x.id = st.id) = true
  · rw [if_pos hany]
    simp only [List.find?_map]
    have hpred : ((fun x : IHighlightedStream => decide (x.id = st.id)) ∘
        (fun x => if x.id = st.id then st else x)) =
        (fun x : IHighlightedStream => decide (x.id = st.id)) := by
      funext x
      by_cases hx : x.id = st.id
      · simp [hx]
      · simp [hx]
    rw [hpred]
    obtain ⟨x, hxmem, hx⟩ := List.any_eq_true.mp hany
    have hsome : (s.highlightedStreamsDictionary.find? (fun x => decide (x.id = st.id))).isSome := by
      rw [List.find?_isSome]
      exact ⟨x, hxmem, hx⟩
    obtain ⟨v, hv⟩ := Option.isSome_iff_exists.mp hsome
    have hfs := List.find?_some hv
    have hvid : v.id = st.id := of_decide_eq_true hfs
    rw [hv]
    simp [hvid]
  · rw [if_neg hany]
    have hnone : s.highlightedStreamsDictionary.find? (fun x => decide (x.id = st.id)) = none := by
      rw [List.find?_eq_none]
      intro x hx hcon
      exact hany (List.any_eq_true.mpr ⟨x, hx, hcon⟩)
    simp only []
    rw [find_append_of_none _ _ _ hnone]
    simp

theorem UPDATE_CLIP_paths (s : IHighlighterState) (p : ClipPatch) :
    (UPDATE_CLIP s p).clips.map (fun c => c.path) = s.clips.map (fun c => c.path) := by
  show (s.clips.map (fun c => if c.path = p.path then applyClipPatch c p else c)).map
    (fun c => c.path) = _
  rw [List.map_map]
  apply List.map_congr_left
  intro c _
  show (if c.path = p.path then applyClipPatch c p else c).path = c.path
  split
  · rw [applyClipPatch_path]
  · rfl

theorem ADD_CLIP_paths (s : IHighlighterState) (clip : Clip) :
    clip.path ∈ (ADD_CLIP s clip).clips.map (fun c => c.path) ∧
    (∀ q ∈ s.clips.map (fun c => c.path), q ∈ (ADD_CLIP s clip).clips.map (fun c => c.path)) ∧
    (∀ q ∈ (ADD_CLIP s clip).clips.map (fun c => c.path),
      q ∈ s.clips.map (fun c => c.path) ∨ q = clip.path) := by
  by_cases hany : s.clips.any (fun c => c.path = clip.path) = true
  · have hclips : (ADD_CLIP s clip).clips =
        s.clips.map (fun c => if c.path = clip.path then clip else c) := by
      unfold ADD_CLIP
      simp only [hany, if_true]
    have hmap : (ADD_CLIP s clip).clips.map (fun c => c.path) =
        s.clips.map (fun c => c.path) := by
      rw [hclips, List.map_map]
      apply List.map_congr_left
      intro c _
      show (if c.path = clip.path then clip else c).path = c.path
      split
      · next h => rw [← h]
      · rfl
    refine ⟨?_, ?_, ?_⟩
    · rw [hmap]
      obtain ⟨c, hc, hcp⟩ := List.any_eq_true.mp hany
      exact List.mem_map.mpr ⟨c, hc, of_decide_eq_true hcp⟩
    · intro q hq
      rw [hmap]
      exact hq
    · intro q hq
      rw [hmap] at hq
      exact Or.inl hq
  · have hany2 : s.clips.any (fun c => c.path = clip.path) = false := by
      revert hany
      cases s.clips.any (fun c => c.path = clip.path) <;> simp
    have hclips : (ADD_CLIP s clip).clips = s.clips ++ [clip] := by
      unfold ADD_CLIP
      simp only [hany2, Bool.false_eq_true, if_false]
    refine ⟨?_, ?_, ?_⟩
    · rw [hclips, List.map_append]
      exact List.mem_append_right _ (by simp)
    · intro q hq
      rw [hclips, List.map_append]
      exact List.mem_append_left _ hq
    · intro q hq
      rw [hclips, List.map_append] at hq
      rcases List.mem_append.mp hq with h | h
      · exact Or.inl h
      · right
        simpa using h

theorem addAiGo_spec (sid : String) (chop ghop : Nat) :
    ∀ (l : List INewClipData) (idx : Nat) (w : World),
    ((addAiGo sid chop ghop idx w l).files = w.files ∧
     (addAiGo sid chop ghop idx w l).supported = w.supported) ∧
    (∀ q, q ∈ w.state.clips.map (fun c => c.path) →
      q ∈ (addAiGo sid chop ghop idx w l).state.clips.map (fun c => c.path)) ∧
    (∀ d ∈ l, d.path ∈ (addAiGo sid chop ghop idx w l).state.clips.map (fun c => c.path)) ∧
    (∀ q ∈ (addAiGo sid chop ghop idx w l).state.clips.map (fun c => c.path),
      q ∈ w.state.clips.map (fun c => c.path) ∨ ∃ d ∈ l, q = d.path) := by
  intro l
  induction l with
  | nil =>
    intro idx w
    exact ⟨⟨rfl, rfl⟩, fun q hq => hq,
      fun d hd => absurd hd (List.not_mem_nil d), fun q hq => Or.inl hq⟩
  | cons d rest ih =>
    intro idx w
    by_cases hany : w.state.clips.any (fun c => c.path = d.path) = true
    · have hstep : addAiGo sid chop ghop idx w (d :: rest) =
          addAiGo sid chop ghop (idx + 1) w rest := by
        simp only [addAiGo, hany, if_true]
      rw [hstep]
      obtain ⟨hfe, hpres, hins, hsub⟩ := ih (idx + 1) w
      refine ⟨hfe, hpres, ?_, ?_⟩
      · intro e he
        rcases List.mem_cons.mp he with rfl | he
        · apply hpres
          obtain ⟨c, hc, hcp⟩ := List.any_eq_true.mp hany
          exact List.mem_map.mpr ⟨c, hc, of_decide_eq_true hcp⟩
        · exact hins e he
      · intro q hq
        rcases hsub q hq with h | ⟨e, he, hqe⟩
        · exact Or.inl h
        · exact Or.inr ⟨e, List.mem_cons_of_mem _ he, hqe⟩
    · have hany2 : w.state.clips.any (fun c => c.path = d.path) = false := by
        revert hany
        cases w.state.clips.any (fun c => c.path = d.path) <;> simp
      have hstep : addAiGo sid chop ghop idx w (d :: rest) =
          addAiGo sid chop ghop (idx + 1)
            { w with state := ADD_CLIP w.state (aiNewClip sid chop ghop idx d) } rest := by
        simp only [addAiGo, hany2, Bool.false_eq_true, if_false]
      rw [hstep]
      obtain ⟨hfe, hpres, hins, hsub⟩ :=
        ih (idx + 1) { w with state := ADD_CLIP w.state (aiNewClip sid chop ghop idx d) }
      obtain ⟨hacIns, hacPres, hacSub⟩ := ADD_CLIP_paths w.state (aiNewClip sid chop ghop idx d)
      refine ⟨hfe, ?_, ?_, ?_⟩
      · intro q hq
        exact hpres q (hacPres q hq)
      · intro e he
        rcases List.mem_cons.mp he with rfl | he
        · exact hpres e.path hacIns
        · exact hins e he
      · intro q hq
        rcases hsub q hq with h | ⟨e, he, hqe⟩
        · rcases hacSub q h with h2 | h2
          · exact Or.inl h2
          · exact Or.inr ⟨d, List.mem_cons_self d rest, h2⟩
        · exact Or.inr ⟨e, List.mem_cons_of_mem _ he, hqe⟩

theorem sortAssignGo_spec (sid : String) :
    ∀ (l : List Clip) (idx : Nat) (w : World),
    (sortAssignGo sid idx w l).state.clips.map (fun c => c.path) =
      w.state.clips.map (fun c => c.path) ∧
    (sortAssignGo sid idx w l).files = w.files ∧
    (sortAssignGo sid idx w l).supported = w.supported := by
  intro l
  induction l with
  | nil =>
    intro idx w
    exact ⟨rfl, rfl, rfl⟩
  | cons c rest ih =>
    intro idx w
    simp only [sortAssignGo]
    refine ⟨?_, ?_, ?_⟩
    · rw [(ih (idx + 1) _).1]
      exact UPDATE_CLIP_paths _ _
    · rw [(ih (idx + 1) _).2.1]
    · rw [(ih (idx + 1) _).2.2]

theorem sortStreamClips_spec (w : World) (sid : String)
    (hgood : ∀ c ∈ w.state.clips, fileExists w.files c.path = true ∧ c.path ≠ "add") :
    (sortStreamClipsByStartTime w w.state.clips sid).state.clips.map (fun c => c.path) =
      w.state.clips.map (fun c => c.path) ∧
    (sortStreamClipsByStartTime w w.state.clips sid).files = w.files ∧
    (sortStreamClipsByStartTime w w.state.clips sid).supported = w.supported := by
  unfold sortStreamClipsByStartTime
  rw [getClips_pure_some w w.state.clips sid hgood]
  simp only []
  exact sortAssignGo_spec sid
    (stableSortBy (fun c => startKey c sid) (w.state.clips.filter (fun c => hasStream c sid))) 0 w

theorem loadFold_paths (l : List Clip) :
    ∀ (w : World),
    (l.foldl (fun w c =>
      { w with state := UPDATE_CLIP w.state {
            path := c.path
            loaded := some true
            scrubSprite := some (w.probeScrub c.path)
            duration := some (w.probeDuration c.path)
            deleted := some (w.probeDeleted c.path) } }) w).state.clips.map (fun c => c.path) =
      w.state.clips.map (fun c => c.path) := by
  induction l with
  | nil =>
    intro w
    rfl
  | cons c t ih =>
    intro w
    rw [List.foldl_cons, ih]
    exact UPDATE_CLIP_paths _ _

theorem loadClipsScan_good (sid : Option String) :
    ∀ (l : List Clip) (w : World),
    (∀ c ∈ l, fileExists w.files c.path = true ∧ w.supported c.path = true) →
    (loadClipsScan sid w l).2 = false ∧
    (loadClipsScan sid w l).1.state = w.state ∧
    (loadClipsScan sid w l).1.files = w.files ∧
    (loadClipsScan sid w l).1.supported = w.supported := by
  intro l
  induction l with
  | nil =>
    intro w _
    exact ⟨rfl, rfl, rfl, rfl⟩
  | cons c rest ih =>
    intro w h
    obtain ⟨hex, hsup⟩ := h c (List.mem_cons_self c rest)
    have key : ∀ (u : World), u.state = w.state → u.files = w.files →
        u.supported = w.supported →
        (loadClipsScan sid u rest).2 = false ∧
        (loadClipsScan sid u rest).1.state = w.state ∧
        (loadClipsScan sid u rest).1.files = w.files ∧
        (loadClipsScan sid u rest).1.supported = w.supported := by
      intro u hs hf hsu
      have h2 : ∀ x ∈ rest, fileExists u.files x.path = true ∧ u.supported x.path = true := by
        intro x hx
        rw [hf, hsu]
        exact h x (List.mem_cons_of_mem _ hx)
      obtain ⟨a, b, cc, dd⟩ := ih u h2
      exact ⟨a, by rw [b, hs], by rw [cc, hf], by rw [dd, hsu]⟩
    simp only [loadClipsScan, hex, Bool.true_eq_false, if_false]
    rw [if_pos hsup]
    apply key <;> split <;> rfl

theorem loadClips_paths (w : World) (sid : String)
    (hgood : ∀ c ∈ w.state.clips, fileExists w.files c.path = true ∧ c.path ≠ "add" ∧
      w.supported c.path = true) :
    (loadClips w (some sid)).state.clips.map (fun c => c.path) =
      w.state.clips.map (fun c => c.path) := by
  unfold loadClips
  rw [getClips_pure_some w w.state.clips sid (fun c hc => ⟨(hgood c hc).1, (hgood c hc).2.1⟩)]
  simp only []
  have hscan := loadClipsScan_good (some sid) (w.state.clips.filter (fun c => hasStream c sid)) w
    (fun c hc => ⟨(hgood c (List.mem_of_mem_filter hc)).1,
      (hgood c (List.mem_of_mem_filter hc)).2.2⟩)
  rw [hscan.1]
  simp only [Bool.false_eq_true, if_false]
  rw [loadFold_paths, hscan.2.1]

theorem addAiClips_paths (w : World) (clipData : List INewClipData) (sid : String)
    (hgood : ∀ c ∈ w.state.clips, fileExists w.files c.path = true ∧ c.path ≠ "add" ∧
      w.supported c.path = true)
    (hnew : ∀ d ∈ clipData, fileExists w.files d.path = true ∧ d.path ≠ "add" ∧
      w.supported d.path = true) :
    ∀ d ∈ clipData, ∃ c ∈ (addAiClips w clipData sid).state.clips, c.path = d.path := by
  have hW : addAiClips w clipData sid =
      loadClips (sortStreamClipsByStartTime
        (addAiGo sid (w.state.clips.filter (fun c => hasStream c sid)).length
          w.state.clips.length 0 w clipData)
        (addAiGo sid (w.state.clips.filter (fun c => hasStream c sid)).length
          w.state.clips.length 0 w clipData).state.clips sid) (some sid) := by
    unfold addAiClips
    rw [getClips_pure_some w w.state.clips sid
      (fun c hc => ⟨(hgood c hc).1, (hgood c hc).2.1⟩)]
    simp only []
    rw [getClips_pure_none w w.state.clips
      (fun c hc => ⟨(hgood c hc).1, (hgood c hc).2.1⟩)]
  obtain ⟨⟨hfiles, hsupp⟩, hpres, hins, hsub⟩ := addAiGo_spec sid
    (w.state.clips.filter (fun c => hasStream c sid)).length w.state.clips.length
    clipData 0 w
  set W2 := addAiGo sid (w.state.clips.filter (fun c => hasStream c sid)).length
    w.state.clips.length 0 w clipData with hW2
  have hgood2 : ∀ c ∈ W2.state.clips, fileExists W2.files c.path = true ∧ c.path ≠ "add" ∧
      W2.supported c.path = true := by
    intro c hc
    have hq := hsub c.path (List.mem_map.mpr ⟨c, hc, rfl⟩)
    rw [hfiles, hsupp]
    rcases hq with h | ⟨d, hd, hq⟩
    · obtain ⟨c0, hc0, hc0p⟩ := List.mem_map.mp h
      rw [← hc0p]
      exact hgood c0 hc0
    · rw [hq]
      exact hnew d hd
  obtain ⟨hsortP, hsortF, hsortS⟩ := sortStreamClips_spec W2 sid
    (fun c hc => ⟨(hgood2 c hc).1, (hgood2 c hc).2.1⟩)
  set W3 := sortStreamClipsByStartTime W2 W2.state.clips sid with hW3
  have hgood3 : ∀ c ∈ W3.state.clips, fileExists W3.files c.path = true ∧ c.path ≠ "add" ∧
      W3.supported c.path = true := by
    intro c hc
    have hmem : c.path ∈ W3.state.clips.map (fun c => c.path) :=
      List.mem_map.mpr ⟨c, hc, rfl⟩
    rw [hsortP] at hmem
    obtain ⟨c0, hc0, hc0p⟩ := List.mem_map.mp hmem
    rw [hsortF, hsortS, ← hc0p]
    exact hgood2 c0 hc0
  have hload := loadClips_paths W3 sid hgood3
  intro d hd
  have hmem : d.path ∈ (addAiClips w clipData sid).state.clips.map (fun c => c.path) := by
    rw [hW, hload, hsortP]
    exact hins d hd
  obtain ⟨c, hc, hcp⟩ := List.mem_map.mp hmem
  exact ⟨c, hc, hcp⟩

theorem UPDATE_HIGHLIGHTED_STREAM_clips (s : IHighlighterState) (st : IHighlightedStream) :
    (UPDATE_HIGHLIGHTED_STREAM s st).clips = s.clips := by
  unfold UPDATE_HIGHLIGHTED_STREAM
  split <;> rfl

/-- C2, amended: in the incremental-results callback the stream record is
marked FINISHED before addAiClips ingests the cut clips, so one of the
observable states of the callback has the stream FINISHED while none of
the new clip paths is in the ledger yet; after the callback body
completes every new clip path is present. -/
theorem claim_C2_amended (w : World) (setStreamInfo : IHighlightedStream)
    (sid : String) (clipData : List INewClipData)
    (hgood : ∀ c ∈ w.state.clips, fileExists w.files c.path = true ∧ c.path ≠ "add" ∧
      w.supported c.path = true)
    (hnew : ∀ d ∈ clipData, fileExists w.files d.path = true ∧ d.path ≠ "add" ∧
      w.supported d.path = true)
    (hfresh : ∀ d ∈ clipData, ∀ c ∈ w.state.clips, c.path ≠ d.path) :
    (∃ v ∈ renderHighlightsObs w setStreamInfo sid clipData,
      (findStream v.state setStreamInfo.id).map (fun st => st.stateType) = some .FINISHED ∧
      ∀ d ∈ clipData, ∀ c ∈ v.state.clips, c.path ≠ d.path) ∧
    ∀ d ∈ clipData,
      ∃ c ∈ (renderHighlightsRun w setStreamInfo sid clipData).state.clips,
        c.path = d.path := by
  have hclips : (UPDATE_HIGHLIGHTED_STREAM (UPDATE_HIGHLIGHTED_STREAM w.state setStreamInfo) { setStreamInfo with stateType := .FINISHED }).clips = w.state.clips := by
    rw [UPDATE_HIGHLIGHTED_STREAM_clips, UPDATE_HIGHLIGHTED_STREAM_clips]
  constructor
  · refine ⟨{ w with state := UPDATE_HIGHLIGHTED_STREAM (UPDATE_HIGHLIGHTED_STREAM w.state setStreamInfo) { setStreamInfo with stateType := .FINISHED } }, ?_, ?_, ?_⟩
    · show _ ∈ [_, _, _, _]
      exact List.mem_cons_of_mem _ (List.mem_cons_of_mem _ (List.mem_cons_self _ _))
    · have h2 : findStream (UPDATE_HIGHLIGHTED_STREAM
          (UPDATE_HIGHLIGHTED_STREAM w.state setStreamInfo)
          { setStreamInfo with stateType := .FINISHED }) setStreamInfo.id =
          some { setStreamInfo with stateType := .FINISHED } :=
        findStream_upsert (UPDATE_HIGHLIGHTED_STREAM w.state setStreamInfo)
          { setStreamInfo with stateType := .FINISHED }
      rw [h2]
      rfl
    · intro d hd c hc
      have hc2 : c ∈ (UPDATE_HIGHLIGHTED_STREAM (UPDATE_HIGHLIGHTED_STREAM w.state setStreamInfo) { setStreamInfo with stateType := .FINISHED }).clips := hc
      rw [hclips] at hc2
      exact hfresh d hd c hc2
  · have hgen : ∀ (S : IHighlighterState), S.clips = w.state.clips →
        ∀ d ∈ clipData,
          ∃ c ∈ (addAiClips { w with state := S } clipData sid).state.clips,
            c.path = d.path := by
      intro S hS
      apply addAiClips_paths
      · intro c hc
        have hc2 : c ∈ S.clips := hc
        rw [hS] at hc2
        exact hgood c hc2
      · intro d hd
        exact hnew d hd
    exact hgen (UPDATE_HIGHLIGHTED_STREAM (UPDATE_HIGHLIGHTED_STREAM w.state setStreamInfo) { setStreamInfo with stateType := .FINISHED }) hclips

/-- C2 witness: the amended property at the concrete callback run on an
empty ledger with the cut clip file q1 on disk. -/
theorem claim_C2_witness :
    (∃ v ∈ renderHighlightsObs (mkWorld [] ["q1"]) inProgressStream "S" callbackClipData,
      (findStream v.state inProgressStream.id).map (fun st => st.stateType) =
        some .FINISHED ∧
      ∀ d ∈ callbackClipData, ∀ c ∈ v.state.clips, c.path ≠ d.path) ∧
    ∀ d ∈ callbackClipData,
      ∃ c ∈ (renderHighlightsRun (mkWorld [] ["q1"]) inProgressStream "S"
        callbackClipData).state.clips, c.path = d.path :=
  claim_C2_amended (mkWorld [] ["q1"]) inProgressStream "S" callbackClipData
    (by decide) (by decide) (by decide)

theorem fileExists_filter_true (l : List String) (a q : String)
    (h : fileExists l q = true) (hqa : q ≠ a) :
    fileExists (l.filter (fun f => f ≠ a)) q = true := by
  rw [fileExists_iff] at h ⊢
  rw [List.mem_filter]
  exact ⟨h, by simp [hqa]⟩

theorem fileExists_filter_self (l : List String) (a : String) :
    fileExists (l.filter (fun f => f ≠ a)) a = false := by
  have h : ¬ (fileExists (l.filter (fun f => f ≠ a)) a = true) := by
    rw [fileExists_iff, List.mem_filter]
    rintro ⟨-, hcon⟩
    simp at hcon
  revert h
  cases fileExists (l.filter (fun f => f ≠ a)) a <;> simp

theorem fileExists_filter_mono (l : List String) (pr : String → Bool) (q : String)
    (h : fileExists l q = false) : fileExists (l.filter pr) q = false := by
  have hnm : ¬ q ∈ l := by
    rw [← fileExists_iff, h]
    simp
  have h2 : ¬ (fileExists (l.filter pr) q = true) := by
    rw [fileExists_iff, List.mem_filter]
    rintro ⟨hcon, -⟩
    exact hnm hcon
  revert h2
  cases fileExists (l.filter pr) q <;> simp

theorem UPDATE_CLIP_mem (s : IHighlighterState) (pt : ClipPatch) (c : Clip)
    (hc : c ∈ s.clips) (hp : c.path = pt.path) :
    applyClipPatch c pt ∈ (UPDATE_CLIP s pt).clips := by
  show _ ∈ s.clips.map (fun x => if x.path = pt.path then applyClipPatch x pt else x)
  refine List.mem_map.mpr ⟨c, hc, ?_⟩
  show (if c.path = pt.path then applyClipPatch c pt else c) = applyClipPatch c pt
  rw [if_pos hp]

theorem removeClipFull_clean (w : World) (p : String) (c : Clip) (sid : Option String)
    (hgood : Healthy w)
    (hscrub : ∀ s, c.scrubSprite = some s → s ≠ p ∧ ∀ x ∈ w.state.clips, x.path ≠ s)
    (hex : fileExists w.files p = true) :
    (removeClipFull w p c sid true).state.clips =
      w.state.clips.filter (fun x => x.path ≠ p) ∧
    (removeClipFull w p c sid true).renderingClips =
      w.renderingClips.filter (fun q => q ≠ p) ∧
    fileExists (removeClipFull w p c sid true).files p = false ∧
    (∀ s, c.scrubSprite = some s →
      fileExists (removeClipFull w p c sid true).files s = false) := by
  cases hs : c.scrubSprite with
  | none =>
    have e1 : removeClipFull w p c sid true =
        removeClipUnlink { w with state := REMOVE_CLIP w.state p, renderingClips := w.renderingClips.filter (fun q => q ≠ p) } p sid true := by
      unfold removeClipFull
      rw [hs]
      rfl
    have hex2 : fileExists ({ w with state := REMOVE_CLIP w.state p, renderingClips := w.renderingClips.filter (fun q => q ≠ p) } : World).files p = true := hex
    have e2 : removeClipUnlink { w with state := REMOVE_CLIP w.state p, renderingClips := w.renderingClips.filter (fun q => q ≠ p) } p sid true =
        (getClips { w with state := REMOVE_CLIP w.state p, renderingClips := w.renderingClips.filter (fun q => q ≠ p), files := w.files.filter (fun f => f ≠ p) } ({ w with state := REMOVE_CLIP w.state p, renderingClips := w.renderingClips.filter (fun q => q ≠ p), files := w.files.filter (fun f => f ≠ p) } : World).state.clips sid).2 := by
      unfold removeClipUnlink
      rw [if_pos rfl, if_pos hex2]
    have h3 : (getClips { w with state := REMOVE_CLIP w.state p, renderingClips := w.renderingClips.filter (fun q => q ≠ p), files := w.files.filter (fun f => f ≠ p) } ({ w with state := REMOVE_CLIP w.state p, renderingClips := w.renderingClips.filter (fun q => q ≠ p), files := w.files.filter (fun f => f ≠ p) } : World).state.clips sid).2 =
        { w with state := REMOVE_CLIP w.state p, renderingClips := w.renderingClips.filter (fun q => q ≠ p), files := w.files.filter (fun f => f ≠ p) } := by
      rw [getClips, getClipsGo_pure sid]
      intro x hx
      have hx2 : x ∈ w.state.clips.filter (fun y => y.path ≠ p) := hx
      rw [List.mem_filter] at hx2
      obtain ⟨hxm, hxp⟩ := hx2
      have hxp2 : x.path ≠ p := of_decide_eq_true hxp
      obtain ⟨hxf, hxa⟩ := hgood x hxm
      exact ⟨fileExists_filter_true w.files p x.path hxf hxp2, hxa⟩
    rw [e1, e2, h3]
    refine ⟨rfl, rfl, ?_, ?_⟩
    · exact fileExists_filter_self w.files p
    · intro s hss
      simp at hss
  | some s =>
    obtain ⟨hsp, hsafe⟩ := hscrub s hs
    have e1 : removeClipFull w p c sid true =
        removeClipUnlink { w with state := REMOVE_CLIP w.state p, files := w.files.filter (fun f => f ≠ s), renderingClips := w.renderingClips.filter (fun q => q ≠ p) } p sid true := by
      unfold removeClipFull
      rw [hs]
      rfl
    have hex2 : fileExists ({ w with state := REMOVE_CLIP w.state p, files := w.files.filter (fun f => f ≠ s), renderingClips := w.renderingClips.filter (fun q => q ≠ p) } : World).files p = true :=
      fileExists_filter_true w.files s p hex (Ne.symm hsp)
    have e2 : removeClipUnlink { w with state := REMOVE_CLIP w.state p, files := w.files.filter (fun f => f ≠ s), renderingClips := w.renderingClips.filter (fun q => q ≠ p) } p sid true =
        (getClips { w with state := REMOVE_CLIP w.state p, renderingClips := w.renderingClips.filter (fun q => q ≠ p), files := (w.files.filter (fun f => f ≠ s)).filter (fun f => f ≠ p) } ({ w with state := REMOVE_CLIP w.state p, renderingClips := w.renderingClips.filter (fun q => q ≠ p), files := (w.files.filter (fun f => f ≠ s)).filter (fun f => f ≠ p) } : World).state.clips sid).2 := by
      unfold removeClipUnlink
      rw [if_pos rfl, if_pos hex2]
    have h3 : (getClips { w with state := REMOVE_CLIP w.state p, renderingClips := w.renderingClips.filter (fun q => q ≠ p), files := (w.files.filter (fun f => f ≠ s)).filter (fun f => f ≠ p) } ({ w with state := REMOVE_CLIP w.state p, renderingClips := w.renderingClips.filter (fun q => q ≠ p), files := (w.files.filter (fun f => f ≠ s)).filter (fun f => f ≠ p) } : World).state.clips sid).2 =
        { w with state := REMOVE_CLIP w.state p, renderingClips := w.renderingClips.filter (fun q => q ≠ p), files := (w.files.filter (fun f => f ≠ s)).filter (fun f => f ≠ p) } := by
      rw [getClips, getClipsGo_pure sid]
      intro x hx
      have hx2 : x ∈ w.state.clips.filter (fun y => y.path ≠ p) := hx
      rw [List.mem_filter] at hx2
      obtain ⟨hxm, hxp⟩ := hx2
      have hxp2 : x.path ≠ p := of_decide_eq_true hxp
      obtain ⟨hxf, hxa⟩ := hgood x hxm
      refine ⟨fileExists_filter_true _ p x.path ?_ hxp2, hxa⟩
      exact fileExists_filter_true w.files s x.path hxf (hsafe x hxm)
    rw [e1, e2, h3]
    refine ⟨rfl, rfl, ?_, ?_⟩
    · exact fileExists_filter_self _ p
    · intro t hts
      have ht := (Option.some.inj hts).symm
      subst ht
      exact fileExists_filter_mono _ _ _ (fileExists_filter_self w.files t)

/-- C6: for a clip whose backing file exists, removing it under stream A
while it is associated with exactly the two streams A and B drops only
the A association and keeps the record; removing with no stream id, or
removing it under A when A is its only association, deletes the record
from the ledger together with its scrub-sprite file and its in-memory
RenderingClip handle. -/
theorem claim_C6_removeClip (w : World) (p : String) (c : Clip)
    (A B : String) (eA eB : TStreamInfo)
    (hfind : w.state.clips.find? (fun x => x.path = p) = some c)
    (hex : fileExists w.files p = true)
    (hgood : Healthy w)
    (hscrub : ∀ s, c.scrubSprite = some s → s ≠ p ∧ ∀ x ∈ w.state.clips, x.path ≠ s) :
    (c.streamInfo = some [(A, eA), (B, eB)] → A ≠ B →
      ∃ c2 ∈ (removeClip w p (some A) true).state.clips,
        c2.path = c.path ∧ c2.streamInfo = some [(B, eB)]) ∧
    ((removeClip w p none true).state.clips =
        w.state.clips.filter (fun x => x.path ≠ p) ∧
      (removeClip w p none true).renderingClips =
        w.renderingClips.filter (fun q => q ≠ p) ∧
      fileExists (removeClip w p none true).files p = false ∧
      ∀ s, c.scrubSprite = some s →
        fileExists (removeClip w p none true).files s = false) ∧
    (c.streamInfo = some [(A, eA)] →
      (removeClip w p (some A) true).state.clips =
        w.state.clips.filter (fun x => x.path ≠ p) ∧
      (removeClip w p (some A) true).renderingClips =
        w.renderingClips.filter (fun q => q ≠ p) ∧
      fileExists (removeClip w p (some A) true).files p = false ∧
      ∀ s, c.scrubSprite = some s →
        fileExists (removeClip w p (some A) true).files s = false) := by
  have hc : c ∈ w.state.clips := List.mem_of_find?_eq_some hfind
  refine ⟨?_, ?_, ?_⟩
  · intro hsi hAB
    have h1 : removeClip w p (some A) true =
        pruneStreamsFor (removeClipBranch w p c (some A) true) c (some A) := by
      unfold removeClip
      rw [hfind]
    have hcond : (fileExists w.files p &&
        decide (([(A, eA), (B, eB)] : List (String × TStreamInfo)).length > 1)) = true := by
      rw [hex]
      rfl
    have h2 : removeClipBranch w p c (some A) true =
        { w with state := UPDATE_CLIP w.state { path := c.path, streamInfo := some (some (aerase [(A, eA), (B, eB)] A)) } } := by
      unfold removeClipBranch
      rw [hsi]
      show (if (fileExists w.files p &&
          decide (([(A, eA), (B, eB)] : List (String × TStreamInfo)).length > 1)) = true then
          { w with state := UPDATE_CLIP w.state { path := c.path, streamInfo := some (some (aerase [(A, eA), (B, eB)] A)) } }
        else removeClipFull w p c (some A) true) = _
      rw [if_pos hcond]
    obtain ⟨d, hp⟩ := pruneStreamsFor_frame (removeClipBranch w p c (some A) true) c (some A)
    rw [h1, hp, h2]
    have haer : aerase [(A, eA), (B, eB)] A = [(B, eB)] := by
      simp [aerase, Ne.symm hAB]
    refine ⟨applyClipPatch c { path := c.path, streamInfo := some (some (aerase [(A, eA), (B, eB)] A)) }, ?_, ?_, ?_⟩
    · exact UPDATE_CLIP_mem w.state _ c hc rfl
    · exact applyClipPatch_path c _
    · show some (aerase [(A, eA), (B, eB)] A) = _
      rw [haer]
  · have h1 : removeClip w p none true =
        pruneStreamsFor (removeClipBranch w p c none true) c none := by
      unfold removeClip
      rw [hfind]
    have h2 : removeClipBranch w p c none true = removeClipFull w p c none true := rfl
    obtain ⟨d, hp⟩ := pruneStreamsFor_frame (removeClipBranch w p c none true) c none
    obtain ⟨q1, q2, q3, q4⟩ := removeClipFull_clean w p c none hgood hscrub hex
    rw [h1, hp, h2]
    exact ⟨q1, q2, q3, q4⟩
  · intro hsi1
    have h1 : removeClip w p (some A) true =
        pruneStreamsFor (removeClipBranch w p c (some A) true) c (some A) := by
      unfold removeClip
      rw [hfind]
    have hcondF : (fileExists w.files p &&
        decide (([(A, eA)] : List (String × TStreamInfo)).length > 1)) = false := by
      rw [show (decide (([(A, eA)] : List (String × TStreamInfo)).length > 1)) = false from rfl]
      exact Bool.and_false _
    have h2 : removeClipBranch w p c (some A) true = removeClipFull w p c (some A) true := by
      unfold removeClipBranch
      rw [hsi1]
      show (if (fileExists w.files p &&
          decide (([(A, eA)] : List (String × TStreamInfo)).length > 1)) = true then
          { w with state := UPDATE_CLIP w.state { path := c.path, streamInfo := some (some (aerase [(A, eA)] A)) } }
        else removeClipFull w p c (some A) true) = _
      rw [if_neg (by simp [hcondF])]
    obtain ⟨d, hp⟩ := pruneStreamsFor_frame (removeClipBranch w p c (some A) true) c (some A)
    obtain ⟨q1, q2, q3, q4⟩ := removeClipFull_clean w p c (some A) hgood hscrub hex
    rw [h1, hp, h2]
    exact ⟨q1, q2, q3, q4⟩

/-- C6 witness: the two-stream clip keeps its record with only the B
association after removal under A, and the single-association clip is
fully deleted - record, sprite file and RenderingClip handle. -/
theorem claim_C6_witness :
    (∃ c2 ∈ (removeClip c6WorldAB "v.mp4" (some "A") true).state.clips,
      c2.path = c6ClipAB.path ∧
      c2.streamInfo = some [("B", ({ orderPosition := 0 } : TStreamInfo))]) ∧
    ((removeClip c6WorldA "w.mp4" (some "A") true).state.clips =
        c6WorldA.state.clips.filter (fun x => x.path ≠ "w.mp4") ∧
      (removeClip c6WorldA "w.mp4" (some "A") true).renderingClips =
        c6WorldA.renderingClips.filter (fun q => q ≠ "w.mp4") ∧
      fileExists (removeClip c6WorldA "w.mp4" (some "A") true).files "w.mp4" = false ∧
      ∀ s, c6ClipA.scrubSprite = some s →
        fileExists (removeClip c6WorldA "w.mp4" (some "A") true).files s = false) := by
  constructor
  · exact (claim_C6_removeClip c6WorldAB "v.mp4" c6ClipAB "A" "B"
      { orderPosition := 0 } { orderPosition := 0 } (by decide) (by decide) (by decide)
      (by
        intro s hs
        have h2 := (Option.some.inj hs).symm
        subst h2
        exact ⟨by decide, by decide⟩)).1 (by decide) (by decide)
  · exact (claim_C6_removeClip c6WorldA "w.mp4" c6ClipA "A" "A"
      { orderPosition := 0 } { orderPosition := 0 } (by decide) (by decide) (by decide)
      (by
        intro s hs
        have h2 := (Option.some.inj hs).symm
        subst h2
        exact ⟨by decide, by decide⟩)).2.2 (by decide)
